import Mathlib

/-!
Verification of the DSPgate Tesira protocol engine (`dsp/Tesira.py`,
`transports/SSH.py`) against its natural-language specification.

Python strings are embedded as `List Char`; Python `float` values that the
code produces by parsing decimal text are embedded as exact decimal numbers
(`Dec`, an integer mantissa with a power-of-ten exponent); Python dicts are
embedded as insertion-ordered association lists.  Fallible code (assertions,
`KeyError`, `ValueError`, uncaught exceptions) is embedded with `Except` or
with explicit error flags.
-/

/-- Python strings are sequences of characters. -/
abbrev PyStr := List Char

/-- Shorthand turning a Lean string literal into the embedded string type. -/
def S (s : String) : PyStr := s.data

/-- Characters stripped by Python `str.strip()` (ASCII whitespace). -/
def pyIsSpace (c : Char) : Bool :=
  c = ' ' || c = '\t' || c = '\n' || c = '\r' || c = '\x0b' || c = '\x0c'

/-- Left part of Python `str.strip()`. -/
def trimLeft (l : PyStr) : PyStr := l.dropWhile pyIsSpace

/-- Right part of Python `str.strip()`. -/
def trimRight (l : PyStr) : PyStr := (l.reverse.dropWhile pyIsSpace).reverse

/-- Python `str.strip()`. -/
def pyStrip (l : PyStr) : PyStr := trimRight (trimLeft l)

/-- ASCII lowercase of one character, as Python `str.lower()` does on ASCII. -/
def lowerChar (c : Char) : Char :=
  if 'A' ≤ c ∧ c ≤ 'Z' then Char.ofNat (c.toNat + 32) else c

/-- Python `str.lower()`. -/
def pyLower (l : PyStr) : PyStr := l.map lowerChar

/-- Python `str.replace(c, "")`: delete every occurrence of one character. -/
def removeAll (c : Char) (l : PyStr) : PyStr := l.filter (· != c)

/-- Split at the first occurrence of a character: `some (before, after)`,
or `none` when the character does not occur.  Used to embed Python
`str.split(sep, 1)` (whose missing-separator case raises `IndexError`
at the call sites that index `[1]`). -/
def splitFirst (c : Char) : PyStr → Option (PyStr × PyStr)
  | [] => none
  | x :: xs =>
    if x = c then some ([], xs)
    else (splitFirst c xs).map fun p => (x :: p.1, p.2)

/-- Python `str.split(sep, maxsplit)` for a single-character separator. -/
def splitN (c : Char) : Nat → PyStr → List PyStr
  | 0, l => [l]
  | n + 1, l =>
    match splitFirst c l with
    | none => [l]
    | some (a, b) => a :: splitN c n b

/-- Accumulator worker for `splitSpaces`. -/
def splitSpacesAcc : PyStr → PyStr → List PyStr
  | [], acc => [acc.reverse]
  | c :: rest, acc =>
    if c = ' ' then acc.reverse :: splitSpacesAcc rest []
    else splitSpacesAcc rest (c :: acc)

/-- Python `str.split(" ")`: split on every single space, keeping empties. -/
def splitSpaces (l : PyStr) : List PyStr := splitSpacesAcc l []

/-- Python `str.split(" ")[-1]` used on block-type probes: the last
space-separated token (the whole string when there is no space). -/
def lastToken (l : PyStr) : PyStr := (splitSpaces l).getLastD (S "")

/-- Accumulator worker for `splitlines`: `acc` holds the current segment
reversed.  A final unterminated segment is emitted; a trailing terminator
emits no empty segment, matching Python `str.splitlines()`.  `\r` and
`\n` each break; a `\r\n` pair therefore yields one extra empty segment
compared to Python, which the protocol line scan skips, so
`__parseResponse` behaves identically. -/
def splitlinesAcc : PyStr → PyStr → List PyStr
  | [], acc => if acc = [] then [] else [acc.reverse]
  | c :: r, acc =>
    if c = '\n' ∨ c = '\r' then acc.reverse :: splitlinesAcc r []
    else splitlinesAcc r (c :: acc)

/-- Python `str.splitlines()` restricted to `\n` and `\r` breaks. -/
def splitlines (l : PyStr) : List PyStr :=
  if l = [] then [] else splitlinesAcc l []

/-- Substring membership, Python `"sub" in s`. -/
def containsSub (sub l : PyStr) : Bool :=
  match l with
  | [] => sub.isPrefixOf []
  | _ :: xs => sub.isPrefixOf l || containsSub sub xs

/-- One step of Python `str.replace(old, "")` scanning: worker for
`replaceSub`, fuel-driven (structural in the fuel).  A non-empty match
consumes at least one character, so fuel equal to the scanned length
never runs out. -/
def replaceSubAcc (old : PyStr) : Nat → PyStr → PyStr → PyStr
  | _, [], acc => acc.reverse
  | 0, l, acc => acc.reverse ++ l
  | fuel + 1, c :: xs, acc =>
    if old.isPrefixOf (c :: xs) ∧ old ≠ [] then
      replaceSubAcc old fuel ((c :: xs).drop old.length) acc
    else
      replaceSubAcc old fuel xs (c :: acc)

/-- Python `str.replace(old, "")` (deletion form used on block types). -/
def replaceSub (old l : PyStr) : PyStr := replaceSubAcc old l.length l []

/-- Collect the groups matched by the Python regex `"([^"]*)"`: the texts
between successive balanced pairs of double quotes.  `inItem = some acc`
while scanning inside an open quote. -/
def quotedScan : PyStr → Option PyStr → List PyStr
  | [], _ => []
  | c :: rest, none =>
    if c = '"' then quotedScan rest (some []) else quotedScan rest none
  | c :: rest, some acc =>
    if c = '"' then acc.reverse :: quotedScan rest none
    else quotedScan rest (some (c :: acc))

/-- Quote-delimited items of a list payload, in order. -/
def quotedItems (l : PyStr) : List PyStr := quotedScan l none

/-- Fuel-driven digit extraction, least significant digit peeled first and
consed onto `acc`, so digits come out most significant first. -/
def natToCharsAux : Nat → Nat → PyStr → PyStr
  | 0, _, acc => acc
  | fuel + 1, n, acc =>
    if n = 0 then acc else natToCharsAux fuel (n / 10) (Nat.digitChar (n % 10) :: acc)

/-- Decimal digit characters of a natural number, most significant first;
`0` is printed as `"0"`, matching Python `str(int)`. -/
def natToChars (n : Nat) : PyStr :=
  if n = 0 then ['0'] else natToCharsAux n n []

/-- Python `str(int)`. -/
def intToChars (n : Int) : PyStr :=
  if n < 0 then '-' :: natToChars n.natAbs else natToChars n.natAbs

/-- Value of a string of decimal digit characters, most significant first. -/
def digitsVal (l : PyStr) : Nat :=
  l.foldl (fun a c => 10 * a + (c.toNat - 48)) 0

/-- Decimal digit test, `'0' ≤ c ≤ '9'`. -/
def isDig (c : Char) : Bool := 48 ≤ c.toNat && c.toNat ≤ 57

/-- Exact decimal number: the value `num / 10 ^ exp`.  This embeds the
Python `float` values the code manufactures by parsing decimal text
(`float(v)`, `str(float)` round-trips exactly in Python 3). -/
structure Dec where
  num : Int
  exp : Nat
deriving DecidableEq

/-- Canonical form: strip factors of ten shared by mantissa and exponent. -/
def canonDec : Int → Nat → Dec
  | n, 0 => ⟨n, 0⟩
  | n, e + 1 => if n % 10 = 0 then canonDec (n / 10) e else ⟨n, e + 1⟩

/-- `a ≤ b` on decimal values, compared exactly (cross-multiplied). -/
def decLE (a b : Dec) : Prop := a.num * 10 ^ b.exp ≤ b.num * 10 ^ a.exp

instance (a b : Dec) : Decidable (decLE a b) := by
  unfold decLE
  infer_instance

/-- Unsigned decimal literal: digits with an optional single dot, at least
one digit overall — the decimal core of Python `float(str)`. -/
def parseDecCore (l : PyStr) : Option Dec :=
  let ip := l.takeWhile isDig
  let rest := l.dropWhile isDig
  match rest with
  | [] => if ip.isEmpty then none else some ⟨digitsVal ip, 0⟩
  | '.' :: fr =>
    if fr.all isDig ∧ ¬(ip.isEmpty ∧ fr.isEmpty) then
      some ⟨(digitsVal ip : Int) * 10 ^ fr.length + digitsVal fr, fr.length⟩
    else none
  | _ => none

/-- Python `float(str)` on already-stripped text, restricted to plain
decimal literals with an optional sign (the only float syntax this
program emits or receives); the result is kept canonical so that equal
floats are equal `Dec`s. -/
def parsePyFloat (l : PyStr) : Option Dec :=
  match l with
  | [] => none
  | c :: r =>
    if c = '-' then (parseDecCore r).map fun d => canonDec (-d.num) d.exp
    else if c = '+' then (parseDecCore r).map fun d => canonDec d.num d.exp
    else (parseDecCore (c :: r)).map fun d => canonDec d.num d.exp

/-- Python `str(float)` for the decimal floats of this model: sign,
integer digits, `'.'`, at least one fractional digit (`str(5.0) = "5.0"`). -/
def decToChars (d : Dec) : PyStr :=
  let e := max d.exp 1
  let m := d.num.natAbs * 10 ^ (e - d.exp)
  let fc := natToChars (m % 10 ^ e)
  (if d.num < 0 then ['-'] else []) ++
    natToChars (m / 10 ^ e) ++ '.' :: (List.replicate (e - fc.length) '0' ++ fc)

/-- Python value produced by the response pipeline: float, bool or text. -/
inductive PyVal where
  | num : Dec → PyVal
  | bool : Bool → PyVal
  | text : PyStr → PyVal
deriving DecidableEq

/-- Python `str()` of such a value (`str(True) = "True"`). -/
def pyStr : PyVal → PyStr
  | .num d => decToChars d
  | .bool true => S "True"
  | .bool false => S "False"
  | .text s => s

/-- `Tesira.__valFormat`: strip, try float, then the bool word sets,
else keep the text. -/
def valFormat (l : PyStr) : PyVal :=
  let v := pyStrip l
  match parsePyFloat v with
  | some d => .num d
  | none =>
    if pyLower v ∈ [S "true", S "yes", S "on"] then .bool true
    else if pyLower v ∈ [S "false", S "no", S "off"] then .bool false
    else .text v

/-- Python `bool()` coercion of a parsed value. -/
def pyBool : PyVal → Bool
  | .num d => d.num ≠ 0
  | .bool b => b
  | .text s => s ≠ []

/-- Python `float()` coercion of a parsed value (`none` embeds the
`ValueError` / `TypeError` raise). -/
def pyFloat : PyVal → Option Dec
  | .num d => some d
  | .bool true => some ⟨1, 0⟩
  | .bool false => some ⟨0, 0⟩
  | .text s => parsePyFloat (pyStrip s)

/-! Round trip between `str(float)` and `float(str)` in the decimal model. -/

/-- Canonical decimal: no factor of ten left between mantissa and exponent. -/
def CanonD (d : Dec) : Prop := d.exp = 0 ∨ d.num % 10 ≠ 0

/-! Embedding of `Tesira.__parseResponse` and the read loop. -/

instance {ε α : Type} [DecidableEq ε] [DecidableEq α] : DecidableEq (Except ε α) :=
  fun x y =>
    match x, y with
    | .ok a, .ok b =>
      if h : a = b then .isTrue (congrArg Except.ok h)
      else .isFalse (fun hh => h (Except.ok.inj hh))
    | .error a, .error b =>
      if h : a = b then .isTrue (congrArg Except.error h)
      else .isFalse (fun hh => h (Except.error.inj hh))
    | .ok _, .error _ => .isFalse (fun hh => Except.noConfusion hh)
    | .error _, .ok _ => .isFalse (fun hh => Except.noConfusion hh)

/-- Kind tag of a parsed response line. -/
inductive RType where
  | ok
  | error
  | subscription
deriving DecidableEq

/-- Scalar-or-list payload attached to a subscription key. -/
inductive SubVal where
  | scalar : PyVal → SubVal
  | list : List PyVal → SubVal
deriving DecidableEq

/-- Decoded subscription message: target block, resolved logical kind
(`levels` / `mutes` / `streaming` / `connected`) and the raw value. -/
structure SubMsg where
  dspBlock : PyStr
  kind : PyStr
  value : SubVal
deriving DecidableEq

/-- Data slot of the `(parseOK, returnType, data)` triple `__parseResponse`
returns: nothing, verbatim text, a normalised scalar, a normalised list,
or a decoded subscription message. -/
inductive RData where
  | noneD
  | textD : PyStr → RData
  | valD : PyVal → RData
  | listD : List PyVal → RData
  | subD : SubMsg → RData
deriving DecidableEq

/-- First-match lookup in an insertion-ordered association list. -/
def lookupA {κ α : Type} [DecidableEq κ] : List (κ × α) → κ → Option α
  | [], _ => none
  | (k, v) :: rest, key => if k = key then some v else lookupA rest key

/-- Python dict assignment `m[key] = v`: replace in place, else append. -/
def dictUpsert {κ α : Type} [DecidableEq κ] (m : List (κ × α)) (key : κ) (v : α) :
    List (κ × α) :=
  if (lookupA m key).isSome then
    m.map (fun p => if p.1 = key then (p.1, v) else p)
  else m ++ [(key, v)]

/-- Match one key token of the subscription regex
`(\[.*?\]|"[^"]*"|[^:\s]+)` at the head of the input: bracketed, quoted,
or a nonempty run of characters that are neither `:` nor whitespace.
Returns the token (delimiters included) and the rest. -/
def matchKeyTok (l : PyStr) : Option (PyStr × PyStr) :=
  match l with
  | [] => none
  | '[' :: r =>
    match splitFirst ']' r with
    | some (a, b) => some ('[' :: a ++ [']'], b)
    | none => none
  | '"' :: r =>
    match splitFirst '"' r with
    | some (a, b) => some ('"' :: a ++ ['"'], b)
    | none => none
  | c :: r =>
    if c = ':' ∨ pyIsSpace c then none
    else some (c :: r.takeWhile (fun x => !(x = ':' || pyIsSpace x)),
      r.dropWhile (fun x => !(x = ':' || pyIsSpace x)))

/-- Match one value token `(\[.*?\]|"[^"]*"|[^,\s]+)`: as the key form but
a bareword run excludes `,` and whitespace instead. -/
def matchValTok (l : PyStr) : Option (PyStr × PyStr) :=
  match l with
  | [] => none
  | '[' :: r =>
    match splitFirst ']' r with
    | some (a, b) => some ('[' :: a ++ [']'], b)
    | none => none
  | '"' :: r =>
    match splitFirst '"' r with
    | some (a, b) => some ('"' :: a ++ ['"'], b)
    | none => none
  | c :: r =>
    if c = ',' ∨ pyIsSpace c then none
    else some (c :: r.takeWhile (fun x => !(x = ',' || pyIsSpace x)),
      r.dropWhile (fun x => !(x = ',' || pyIsSpace x)))

/-- Fuel-driven scan for the `key:value` matches of the subscription
tokenizer regex: at each position try key token, colon, value token;
on failure advance one character, as the non-overlapping regex scan does. -/
def findKeyValsF : Nat → PyStr → List (PyStr × PyStr)
  | 0, _ => []
  | fuel + 1, l =>
    match l with
    | [] => []
    | _ :: r =>
      match matchKeyTok l with
      | some (k, rest) =>
        match rest with
        | ':' :: rest2 =>
          match matchValTok rest2 with
          | some (v, rest3) => (k, v) :: findKeyValsF fuel rest3
          | none => findKeyValsF fuel r
        | _ => findKeyValsF fuel r
      | none => findKeyValsF fuel r

/-- All `key:value` token pairs of a subscription body, in order. -/
def findKeyVals (l : PyStr) : List (PyStr × PyStr) := findKeyValsF l.length l

/-- `Tesira.__subscriptionTypeIDs`: the subscription tag table. -/
def subscriptionTypeIDs : List (PyStr × PyStr) :=
  [(S "levels", S "LVLA"), (S "mutes", S "MUTA"),
   (S "streaming", S "USTR"), (S "connected", S "UCON")]

/-- `Tesira.__getSubscriptionTypeBySTID`: first key whose tag matches;
`none` embeds the raised exception for an unknown tag. -/
def getSubscriptionTypeBySTID (stid : PyStr) : Option PyStr :=
  (subscriptionTypeIDs.find? (fun p => p.2 == stid)).map (·.1)

/-- Subscription branch of `__parseResponse`: tokenize `key:value` pairs,
normalise each value (bracketed values become space-split lists), then
demand `value` and `publishToken` keys, the `S_` prefix, a 4-character
tag known to the tag table, and return the decoded message.
`Except.error` embeds every raised assertion/exception. -/
def parseSubBody (line : PyStr) : Except Unit SubMsg :=
  let rData : List (PyStr × SubVal) :=
    (findKeyVals line).foldl (fun acc kv =>
      let key := pyStrip (removeAll '"' kv.1)
      let v : SubVal :=
        if kv.2.contains '[' then
          .list ((splitSpaces (pyStrip (removeAll ']' (removeAll '[' (removeAll '"' kv.2))))).map
            valFormat)
        else
          .scalar (valFormat (removeAll '"' kv.2))
      dictUpsert acc key v) []
  match lookupA rData (S "value") with
  | none => .error ()
  | some value =>
    match lookupA rData (S "publishToken") with
    | none => .error ()
    | some pt =>
      match pt with
      | .scalar (.text rt) =>
        if (S "S_").isPrefixOf rt then
          match splitN '_' 2 rt with
          | [_, p1, p2] =>
            if (pyStrip p1).length = 4 then
              match getSubscriptionTypeBySTID (pyStrip p1) with
              | some kind => .ok ⟨pyStrip p2, kind, value⟩
              | none => .error ()
            else .error ()
          | _ => .error ()
        else .error ()
      | _ => .error ()

/-- The `+OK` branch of `__parseResponse`.  The triple mirrors the Python
`(parseOK, returnType, data)` return; `Except.error` embeds the uncaught
`IndexError` raised on a `list` body with no `[`. -/
def parseOkBody (line : PyStr) : Except Unit (Bool × Option RType × RData) :=
  match splitFirst ':' line with
  | none =>
    if pyStrip (removeAll '"' line) = [] then
      .ok (true, some .ok, .textD (S "cmd_response_ok"))
    else
      .ok (false, some .ok, .noneD)
  | some (pre, post) =>
    let dType := removeAll '"' pre
    let dValue := pyStrip post
    if dType = S "value" then
      .ok (true, some .ok, .valD (valFormat (removeAll '"' dValue)))
    else if dType = S "list" then
      match splitFirst '[' dValue with
      | none => .error ()
      | some (_, afterBr) =>
        .ok (true, some .ok, .listD ((quotedItems (pyStrip
          (match splitFirst ']' afterBr with
           | some (a, _) => a
           | none => afterBr))).map valFormat))
    else
      .ok (true, some .ok, .textD line)

/-- Line scan of `__parseResponse`: the first line starting `+OK`, `-ERR`
or `!` is selected (with its prefix removed and the rest stripped);
every other line, and every later line, is ignored. -/
def findProtoLine : List PyStr → Option (RType × PyStr)
  | [] => none
  | l :: ls =>
    if (S "+OK").isPrefixOf l then some (.ok, pyStrip (l.drop 3))
    else if (S "-ERR").isPrefixOf l then some (.error, pyStrip (l.drop 4))
    else if (S "!").isPrefixOf l then some (.subscription, pyStrip (l.drop 1))
    else findProtoLine ls

/-- `Tesira.__parseResponse`. -/
def parseResponse (resp : PyStr) : Except Unit (Bool × Option RType × RData) :=
  if pyStrip resp = [] then .ok (false, none, .noneD)
  else
    match findProtoLine (splitlines resp) with
    | none => .ok (false, none, .noneD)
    | some (.ok, line) => parseOkBody line
    | some (.error, line) => .ok (true, some .error, .textD line)
    | some (.subscription, line) =>
      (parseSubBody line).map fun msg => (true, some .subscription, .subD msg)

/-- The `__readLoop` acceptance test: a stripped segment is handed to
`__processReceivedData` iff it starts with `+OK`, `+ERR` (exactly as the
source spells it) or `!`. -/
def readLoopAccepts (grab : PyStr) : Bool :=
  (S "+OK").isPrefixOf grab || (S "+ERR").isPrefixOf grab || (S "!").isPrefixOf grab

/-- Newline-split worker for the read loop (the loop cuts the buffer at
each `"\n"`): complete segments plus the leftover buffer. -/
def splitNLAcc : PyStr → PyStr → List PyStr × PyStr
  | [], acc => ([], acc.reverse)
  | c :: r, acc =>
    if c = '\n' then
      ((acc.reverse :: (splitNLAcc r []).1), (splitNLAcc r []).2)
    else splitNLAcc r (c :: acc)

/-- Segments one pass of `__readLoop` hands to the frame processor from a
received buffer: newline-terminated segments, stripped, that pass the
prefix test. -/
def readLoopHanded (buf : PyStr) : List PyStr :=
  (((splitNLAcc buf []).1).map pyStrip).filter readLoopAccepts

/-! Embedding of the device model, discovery, cache load and control API. -/

/-- Channel-dictionary key: Python `int` after live discovery, decimal
string after a JSON cache load (`1 == "1"` is false in Python, so the two
never compare equal). -/
inductive PyKey where
  | int : Int → PyKey
  | str : PyStr → PyKey
deriving DecidableEq

/-- Level record of a channel (`channels[i]["level"]`).  `observed` is a
ghost flag used only to state invariants: discovery creates the record
with `observed = false`, and the only writer of `current` — the
subscription router — sets it to `true`; no code branches on it. -/
structure Level where
  current : Dec
  minimum : PyVal
  maximum : PyVal
  observed : Bool
deriving DecidableEq

/-- One channel record; `none` fields embed absent dict keys. -/
structure Channel where
  idx : Int
  label : PyVal
  muted : Option Bool
  level : Option Level
deriving DecidableEq

/-- One DSP block record; `none` fields embed absent dict keys. -/
structure Block where
  type : PyStr
  supported : Bool
  ganged : Option Bool
  usb : Option (Bool × Bool)
  channels : Option (List (PyKey × Channel))
deriving DecidableEq

/-- The block model `Tesira.__dspBlocks`: an insertion-ordered dict. -/
abbrev Model := List (PyStr × Block)

/-- Update the first entry with the given key (Python dict update keeps
its position). -/
def updateA {κ α : Type} [DecidableEq κ] (m : List (κ × α)) (key : κ) (f : α → α) :
    List (κ × α) :=
  match m with
  | [] => []
  | (k, v) :: rest =>
    if k = key then (k, f v) :: rest else (k, v) :: updateA rest key f

/-- Responses the live device gives during discovery, after `send_wait`
and `__parseResponse` (typed as the code then uses them: the `BLOCKTYPE`
probe yields the error text, `numChannels` after `int(...)` coercion,
the other payloads as normalised values). -/
structure Oracle where
  blocktype : PyStr → PyStr
  ganged : PyStr → PyVal
  numChannels : PyStr → Nat
  labelResp : PyStr → PyStr → Nat → PyVal
  minLevel : PyStr → Nat → PyVal
  maxLevel : PyStr → Nat → PyVal

/-- One discovered channel (`__discoverDSPBlocks`, channel loop body). -/
def discoverChannel (o : Oracle) (blockID ty : PyStr) (i : Nat) : Channel :=
  { idx := (i : Int)
    label :=
      if ty ∈ [S "DanteInput", S "DanteOutput"] then
        o.labelResp blockID (S "channelName") i
      else if ty ∈ [S "UsbInput", S "UsbOutput", S "AudioOutput"] then
        .text (S "Channel" ++ natToChars i)
      else o.labelResp blockID (S "label") i
    muted := if containsSub (S "Usb") ty then none else some false
    level :=
      if ty ∈ [S "LevelControl", S "DanteInput", S "DanteOutput", S "AudioOutput"] then
        some { current := ⟨-100, 0⟩
               minimum := valFormat (pyStr (o.minLevel blockID i))
               maximum := valFormat (pyStr (o.maxLevel blockID i))
               observed := false }
      else none }

/-- Attribute probe for one block (`__discoverDSPBlocks`, second loop). -/
def discoverBlock (o : Oracle) (blockID : PyStr) (b : Block) : Block :=
  if b.type ∈ [S "LevelControl", S "MuteControl", S "DanteInput", S "DanteOutput",
      S "UsbInput", S "UsbOutput", S "AudioOutput"] then
    { b with
      supported := true
      ganged :=
        if b.type ∈ [S "LevelControl", S "MuteControl"] then
          some (pyBool (o.ganged blockID))
        else b.ganged
      usb := if b.type ∈ [S "UsbInput", S "UsbOutput"] then some (false, false) else b.usb
      channels := some ((List.range' 1 (o.numChannels blockID)).map
        (fun (i : Nat) => (PyKey.int (i : Int), discoverChannel o blockID b.type i))) }
  else b

/-- Type probe for one alias (`__discoverDSPBlocks`, first loop body):
take the last space token of the error text; skip the alias unless it
mentions `::Attributes`; else strip `Interface::Attributes` to get the
block type. -/
def probeType (o : Oracle) (blockID : PyStr) : Option Block :=
  let resp := pyStrip (lastToken (o.blocktype blockID))
  if containsSub (S "::Attributes") resp then
    some { type := pyStrip (replaceSub (S "Interface::Attributes") resp)
           supported := false
           ganged := none
           usb := none
           channels := none }
  else none

/-- `Tesira.__discoverDSPBlocks`. -/
def discoverDSPBlocks (o : Oracle) (aliases : List PyStr) : Model :=
  let phase1 : Model := aliases.foldl (fun acc a =>
    match probeType o a with
    | some b => dictUpsert acc a b
    | none => acc) []
  phase1.map (fun p => (p.1, discoverBlock o p.1 p.2))

/-- JSON key coercion: `json.dump`/`json.load` turn every dict key into a
string — channel keys become decimal strings. -/
def jsonKey : PyKey → PyKey
  | .int n => .str (intToChars n)
  | .str s => .str s

/-- JSON round trip of one block: channel dict keys become decimal
strings, every leaf value is kept. -/
def cacheBlock (b : Block) : Block :=
  { b with channels := b.channels.map (fun chs => chs.map (fun q => (jsonKey q.1, q.2))) }

/-- Model adopted from the JSON cache file (`__init__`, cache fast path):
the JSON round trip re-keys every channel dict with decimal strings and
keeps every leaf value. -/
def cacheRoundTrip (m : Model) : Model :=
  m.map fun p => (p.1, cacheBlock p.2)

/-- Ready flag plus block model: the state the control API reads. -/
structure TState where
  ready : Bool
  blocks : Model

/-- Commands sent on the connection plus an error flag (`err = true`
embeds an assertion failure or exception escaping the call). -/
structure OpResult where
  sent : List PyStr
  err : Bool
deriving DecidableEq

/-- How a channel key prints inside an f-string command. -/
def keyChars : PyKey → PyStr
  | .int n => intToChars n
  | .str s => s

/-- The emitted mute command `"<blockID>" set mute <c> <str(value).lower()>`. -/
def muteCmdStr (blockID : PyStr) (c : PyKey) (value : Bool) : PyStr :=
  S "\"" ++ blockID ++ S "\" set mute " ++ keyChars c ++ S " " ++
    pyLower (pyStr (.bool value))

/-- `Tesira.setMute`. -/
def setMute (st : TState) (blockID : PyStr) (channel : Int) (value : Bool) : OpResult :=
  if !st.ready then ⟨[], true⟩
  else
    match lookupA st.blocks blockID with
    | none => ⟨[], true⟩
    | some block =>
      if block.type ∈ [S "LevelControl", S "MuteControl", S "DanteInput",
          S "DanteOutput", S "AudioOutput"] then
        match block.channels with
        | none => ⟨[], true⟩
        | some chs =>
          if channel = 0 then
            ⟨(chs.map Prod.fst).map (fun c => muteCmdStr blockID c value), false⟩
          else if PyKey.int channel ∈ chs.map Prod.fst then
            ⟨[muteCmdStr blockID (PyKey.int channel) value], false⟩
          else ⟨[], true⟩
      else ⟨[], true⟩

/-- The emitted level command `"<blockID>" set level <c> <value>`. -/
def levelCmdStr (blockID : PyStr) (c : PyKey) (value : Dec) : PyStr :=
  S "\"" ++ blockID ++ S "\" set level " ++ keyChars c ++ S " " ++ decToChars value

/-- Per-channel send loop of `Tesira.setLevel`: coerce the stored channel
minimum and maximum with `float(...)`, emit the command only when
`min ≤ value ≤ max`, skip the channel (with a warning) otherwise; any
exception aborts the loop keeping the commands already sent. -/
def setLevelLoop (blockID : PyStr) (chs : List (PyKey × Channel)) (value : Dec) :
    List PyKey → List PyStr → OpResult
  | [], acc => ⟨acc.reverse, false⟩
  | c :: rest, acc =>
    match lookupA chs c with
    | none => ⟨acc.reverse, true⟩
    | some ch =>
      match ch.level with
      | none => ⟨acc.reverse, true⟩
      | some lv =>
        match pyFloat lv.minimum, pyFloat lv.maximum with
        | some mn, some mx =>
          if decLE mn value ∧ decLE value mx then
            setLevelLoop blockID chs value rest (levelCmdStr blockID c value :: acc)
          else setLevelLoop blockID chs value rest acc
        | _, _ => ⟨acc.reverse, true⟩

/-- `Tesira.setLevel`. -/
def setLevel (st : TState) (blockID : PyStr) (channel : Int) (value : Dec) : OpResult :=
  if !st.ready then ⟨[], true⟩
  else
    match lookupA st.blocks blockID with
    | none => ⟨[], true⟩
    | some block =>
      if block.type ∈ [S "LevelControl", S "DanteInput", S "DanteOutput",
          S "AudioOutput"] then
        match block.channels with
        | none => ⟨[], true⟩
        | some chs =>
          if channel = 0 then
            setLevelLoop blockID chs value (chs.map Prod.fst) []
          else if PyKey.int channel ∈ chs.map Prod.fst then
            setLevelLoop blockID chs value [PyKey.int channel] []
          else ⟨[], true⟩
      else ⟨[], true⟩

/-! Embedding of the subscription router (`__processReceivedData`). -/

/-- Update one channel of one block in place. -/
def updateChan (m : Model) (bid : PyStr) (k : PyKey) (f : Channel → Channel) : Model :=
  updateA m bid (fun b => { b with channels := b.channels.map (fun chs => updateA chs k f) })

/-- Apply a `mutes` list frame: `channels[cIDX]["muted"] = bool(v)` for
each channel index paired with its received value (`bool()` is total, so
this loop cannot raise). -/
def writeMutes (m : Model) (bid : PyStr) (pairs : List (PyKey × PyVal)) : Model :=
  pairs.foldl (fun acc p =>
    updateChan acc bid p.1 (fun ch => { ch with muted := some (pyBool p.2) })) m

/-- One step of the levels loop:
`channels[cIDX]["level"]["current"] = float(v)`.  `Except.error` embeds a
raised `ValueError`/`KeyError`, carrying the state reached so far. -/
def writeLevel1 (m : Model) (bid : PyStr) (k : PyKey) (v : PyVal) : Except Model Model :=
  match pyFloat v with
  | none => .error m
  | some q =>
    match lookupA m bid with
    | none => .error m
    | some b =>
      match b.channels with
      | none => .error m
      | some chs =>
        match lookupA chs k with
        | none => .error m
        | some ch =>
          match ch.level with
          | none => .error m
          | some _ => .ok (updateChan m bid k (fun c =>
              { c with level := c.level.map (fun lv =>
                  { lv with current := q, observed := true }) }))

/-- Apply a `levels` list frame channel by channel; an exception mid-loop
keeps the channels already written. -/
def writeLevels (m : Model) (bid : PyStr) : List (PyKey × PyVal) → Except Model Model
  | [] => .ok m
  | p :: rest =>
    match writeLevel1 m bid p.1 p.2 with
    | .error m2 => .error m2
    | .ok m2 => writeLevels m2 bid rest

/-- Subscription branch of `__processReceivedData` (everything inside
`if msgType == "subscription"`); `Except.error` carries the state at the
raise so the surrounding `try/except` keeps any writes already applied. -/
def applySub (m : Model) (msg : SubMsg) : Except Model Model :=
  match lookupA m msg.dspBlock with
  | none => .error m
  | some b =>
    if b.type ∈ [S "LevelControl", S "MuteControl", S "DanteInput", S "DanteOutput",
        S "UsbInput", S "UsbOutput", S "AudioOutput"] then
      match b.channels with
      | none => .error m
      | some chs =>
        match msg.value with
        | .list vs =>
          if vs.length ≠ chs.length then .error m
          else if msg.kind = S "mutes" then
            if b.type ∈ [S "UsbInput", S "UsbOutput"] then .ok m
            else .ok (writeMutes m msg.dspBlock ((chs.map Prod.fst).zip vs))
          else
            if b.type = S "MuteControl" then .error m
            else writeLevels m msg.dspBlock ((chs.map Prod.fst).zip vs)
        | .scalar v =>
          match v with
          | .num _ => .ok m
          | _ =>
            if b.type ∈ [S "UsbInput", S "UsbOutput"] then
              match b.usb with
              | none => .error m
              | some _ =>
                if msg.kind = S "streaming" then
                  .ok (updateA m msg.dspBlock (fun bb =>
                    { bb with usb := bb.usb.map (fun u => (pyBool v, u.2)) }))
                else if msg.kind = S "connected" then
                  .ok (updateA m msg.dspBlock (fun bb =>
                    { bb with usb := bb.usb.map (fun u => (u.1, pyBool v)) }))
                else .ok m
            else .ok m
    else .ok m

/-- Dispatch of one decoded subscription message with the surrounding
`try/except`: an exception is logged and the state reached is kept. -/
def dispatchSub (m : Model) (msg : SubMsg) : Model :=
  match applySub m msg with
  | .ok m2 => m2
  | .error m2 => m2

/-- `Tesira.__processReceivedData` on one line buffer: parse, drop frames
that fail to parse, dispatch subscription frames, ignore the rest. -/
def processReceivedData (m : Model) (buf : PyStr) : Model :=
  match parseResponse buf with
  | .error _ => m
  | .ok (parseOK, msgType, msgData) =>
    if !parseOK then m
    else
      match msgType, msgData with
      | some .subscription, .subD msg => dispatchSub m msg
      | _, _ => m

/-! Helpers for the `+OK` body claims. -/

/-- Spec-side encoder for a quoted list payload, used to state the list
claim: items quoted and space-separated. -/
def joinQuoted : List PyStr → PyStr
  | [] => []
  | [t] => '"' :: t ++ ['"']
  | t :: rest => '"' :: t ++ '"' :: ' ' :: joinQuoted rest

/-- Concrete two-channel level-control state used by the witnesses. -/
def demoChan (i : Nat) : Channel :=
  ⟨(i : Int), .text (S "Ch"), some false,
    some ⟨⟨-100, 0⟩, .num ⟨-100, 0⟩, .num ⟨12, 0⟩, false⟩⟩

/-- Concrete block for the witnesses. -/
def demoBlock : Block :=
  ⟨S "LevelControl", true, some false, none,
    some [(PyKey.int 1, demoChan 1), (PyKey.int 2, demoChan 2)]⟩

/-- Concrete ready state for the witnesses. -/
def demoSt : TState := ⟨true, [(S "Gain1", demoBlock)]⟩

/-- The per-channel decision of `setLevel`: emit iff the stored bounds
coerce and `min ≤ value ≤ max`. -/
def levelDecision (blockID : PyStr) (chs : List (PyKey × Channel)) (value : Dec)
    (c : PyKey) : Option PyStr :=
  match lookupA chs c with
  | some ch =>
    match ch.level with
    | some lv =>
      match pyFloat lv.minimum, pyFloat lv.maximum with
      | some mn, some mx =>
        if decLE mn value ∧ decLE value mx then some (levelCmdStr blockID c value)
        else none
      | _, _ => none
    | none => none
  | none => none

/-! Structure-preservation predicates for the subscription router. -/

/-- Channel fields the router never writes: index, label, and the level
bounds (presence of the level record included). -/
def ChanPres (ch chNew : Channel) : Prop :=
  chNew.idx = ch.idx ∧ chNew.label = ch.label ∧
  chNew.level.map (fun lv => (lv.minimum, lv.maximum)) =
    ch.level.map (fun lv => (lv.minimum, lv.maximum))

/-- Channel dicts with the same keys in the same order, channels pairwise
preserved. -/
def ChansPres (chs chsNew : List (PyKey × Channel)) : Prop :=
  List.Forall₂ (fun p q => q.1 = p.1 ∧ ChanPres p.2 q.2) chs chsNew

/-- Lift a relation to `Option`, demanding equal presence. -/
def OptRel {α : Type} (R : α → α → Prop) : Option α → Option α → Prop
  | none, none => True
  | some a, some b => R a b
  | _, _ => False

/-- Block fields the router never writes: type, supported, ganged, the
presence of the usb record, and the channel structure. -/
def BlockPres (b bNew : Block) : Prop :=
  bNew.type = b.type ∧ bNew.supported = b.supported ∧ bNew.ganged = b.ganged ∧
  bNew.usb.isSome = b.usb.isSome ∧ OptRel ChansPres b.channels bNew.channels

/-- Every block preserved, and every block other than `target` untouched. -/
def ModelPres (target : PyStr) (m mNew : Model) : Prop :=
  List.Forall₂ (fun p q => q.1 = p.1 ∧ (p.1 ≠ target → q.2 = p.2) ∧
    BlockPres p.2 q.2) m mNew

/-- Every block preserved (the target-independent part of `ModelPres`). -/
def StructPres (m mNew : Model) : Prop :=
  List.Forall₂ (fun p q => q.1 = p.1 ∧ BlockPres p.2 q.2) m mNew

/-- Collapse the `try/except` view: the state the handler keeps, whether
the branch finished or raised. -/
def exVal : Except Model Model → Model
  | .ok m => m
  | .error m => m

/-! Invariant of the level model (C3). -/

/-- Channel keys of a block stay exactly the integers `1..N` in order,
with `N` the channel count. -/
def chanIdxOK (chs : List (PyKey × Channel)) : Prop :=
  chs.map Prod.fst =
    (List.range' 1 chs.length).map (fun (i : Nat) => PyKey.int (i : Int))

/-- Level-record invariant: numeric bounds in order, and the current
value within them whenever it has been observed (written by the
router). -/
def levelInv (lv : Level) : Prop :=
  ∃ mn mx : Dec, lv.minimum = .num mn ∧ lv.maximum = .num mx ∧ decLE mn mx ∧
    (lv.observed = true → decLE mn lv.current ∧ decLE lv.current mx)

/-- Whole-model invariant: every block that is supported has a non-empty
channel dict, channel keys stay `1..N`, and every level record satisfies
`levelInv`. -/
def ModelInv (m : Model) : Prop :=
  ∀ bid b, lookupA m bid = some b →
    (b.supported = true → ∃ chs, b.channels = some chs ∧ chs ≠ []) ∧
    ∀ chs, b.channels = some chs → chanIdxOK chs ∧
      ∀ k ch, lookupA chs k = some ch → ∀ lv, ch.level = some lv → levelInv lv

/-- Every value of a write list stays within the stored bounds of the
channel it addresses. -/
def PairsOK (m : Model) (bid : PyStr) (pairs : List (PyKey × PyVal)) : Prop :=
  ∀ k v, (k, v) ∈ pairs → ∀ b, lookupA m bid = some b →
    ∀ chs, b.channels = some chs → ∀ ch, lookupA chs k = some ch →
    ∀ lv, ch.level = some lv → ∀ d, pyFloat v = some d →
      ∃ mn mx : Dec, lv.minimum = .num mn ∧ lv.maximum = .num mx ∧
        decLE mn d ∧ decLE d mx

/-- A frame whose level writes (if any) stay within the stored bounds of
the channels of its target block. -/
def FrameOK (m : Model) (msg : SubMsg) : Prop :=
  ∀ vs, msg.value = .list vs → msg.kind ≠ S "mutes" →
    ∀ b, lookupA m msg.dspBlock = some b → ∀ chs, b.channels = some chs →
      PairsOK m msg.dspBlock ((chs.map Prod.fst).zip vs)

/-- Device answers during discovery: at least one channel per block, and
numeric, ordered level bounds. -/
def OracleOK (o : Oracle) : Prop :=
  ∀ a : PyStr, 1 ≤ o.numChannels a ∧ ∀ i : Nat,
    ∃ mn mx : Dec, valFormat (pyStr (o.minLevel a i)) = .num mn ∧
      valFormat (pyStr (o.maxLevel a i)) = .num mx ∧ decLE mn mx

/-- Concrete device answers for the closed discovery instances: one
`LevelControl` block per alias, one channel, bounds `-100.0 .. 12.0`. -/
def demoOracle : Oracle :=
  { blocktype := fun _ => S "err LevelControlInterface::Attributes"
    ganged := fun _ => .bool false
    numChannels := fun _ => 1
    labelResp := fun _ _ _ => .text (S "L")
    minLevel := fun _ _ => .num ⟨-100, 0⟩
    maxLevel := fun _ _ => .num ⟨12, 0⟩ }

/-! Theorems. -/

/-! Digit-string lemmas used for the `str(float)` / `float(str)` round trip. -/

theorem digitsVal_from (l : PyStr) (x : Nat) :
    l.foldl (fun a c => 10 * a + (c.toNat - 48)) x =
      x * 10 ^ l.length + digitsVal l := by
  induction l generalizing x with
  | nil => simp [digitsVal]
  | cons c t ih =>
    simp only [List.foldl_cons, digitsVal, List.length_cons]
    rw [ih, ih (10 * 0 + (c.toNat - 48))]
    ring

theorem digit_char_val (d : Nat) (h : d < 10) : (Nat.digitChar d).toNat - 48 = d := by
  interval_cases d <;> rfl

theorem digit_char_isDig (d : Nat) (h : d < 10) : isDig (Nat.digitChar d) = true := by
  interval_cases d <;> rfl

theorem digitsVal_digits_rev (ds : List Nat) (h : ∀ d ∈ ds, d < 10) (x : Nat) :
    ((ds.map Nat.digitChar).reverse).foldl (fun a c => 10 * a + (c.toNat - 48)) x =
      x * 10 ^ ds.length + Nat.ofDigits 10 ds := by
  induction ds generalizing x with
  | nil => simp [Nat.ofDigits]
  | cons d t ih =>
    simp only [List.map_cons, List.reverse_cons, List.foldl_append, List.foldl_cons,
      List.foldl_nil, List.length_cons, Nat.ofDigits_cons]
    rw [ih (fun a ha => h a (List.mem_cons_of_mem _ ha))]
    rw [digit_char_val d (h d (List.mem_cons_self _ _))]
    ring

theorem natToCharsAux_eq (fuel : Nat) : ∀ (n : Nat) (acc : PyStr), n ≤ fuel →
    natToCharsAux fuel n acc = ((Nat.digits 10 n).map Nat.digitChar).reverse ++ acc := by
  induction fuel with
  | zero =>
    intro n acc h
    interval_cases n
    simp [natToCharsAux]
  | succ fuel ih =>
    intro n acc h
    by_cases hn : n = 0
    · subst hn; simp [natToCharsAux]
    · rw [natToCharsAux, if_neg hn]
      rw [ih (n / 10) _ (by omega)]
      rw [Nat.digits_def' (by norm_num : (1:Nat) < 10) (Nat.pos_of_ne_zero hn)]
      simp

theorem natToChars_eq (n : Nat) :
    natToChars n = if n = 0 then ['0']
      else ((Nat.digits 10 n).map Nat.digitChar).reverse := by
  unfold natToChars
  by_cases hn : n = 0
  · simp [hn]
  · rw [if_neg hn, if_neg hn, natToCharsAux_eq n n [] (le_refl n), List.append_nil]

theorem digitsVal_natToChars (n : Nat) : digitsVal (natToChars n) = n := by
  rw [natToChars_eq]
  by_cases hn : n = 0
  · simp [hn]; rfl
  · rw [if_neg hn]
    unfold digitsVal
    rw [digitsVal_digits_rev _ (fun d hd => Nat.digits_lt_base (by norm_num) hd) 0]
    simp [Nat.ofDigits_digits]

theorem natToChars_all_isDig (n : Nat) : ∀ c ∈ natToChars n, isDig c = true := by
  rw [natToChars_eq]
  by_cases hn : n = 0
  · simp [hn]
    rfl
  · rw [if_neg hn]
    intro c hc
    rw [List.mem_reverse, List.mem_map] at hc
    obtain ⟨d, hd, rfl⟩ := hc
    exact digit_char_isDig d (Nat.digits_lt_base (by norm_num) hd)

theorem natToChars_ne_nil (n : Nat) : natToChars n ≠ [] := by
  rw [natToChars_eq]
  by_cases hn : n = 0
  · simp [hn]
  · rw [if_neg hn]
    simp only [ne_eq, List.reverse_eq_nil_iff, List.map_eq_nil_iff]
    exact Nat.digits_ne_nil_iff_ne_zero.mpr hn

theorem natToChars_length_le (n k : Nat) (hk : 1 ≤ k) (h : n < 10 ^ k) :
    (natToChars n).length ≤ k := by
  rw [natToChars_eq]
  by_cases hn : n = 0
  · simp [hn]; omega
  · rw [if_neg hn]
    simp only [List.length_reverse, List.length_map]
    rw [Nat.digits_len 10 n (by norm_num) hn]
    have := Nat.log_lt_of_lt_pow hn h
    omega

theorem digitsVal_replicate_zero (j : Nat) (l : PyStr) :
    digitsVal (List.replicate j '0' ++ l) = digitsVal l := by
  induction j with
  | zero => simp
  | succ j ih =>
    simpa [digitsVal, List.replicate_succ] using ih

/-! String-edge lemmas for `strip` and prefix scanning. -/

theorem takeWhile_append_stop (p : Char → Bool) (a : PyStr) (x : Char) (b : PyStr)
    (ha : ∀ c ∈ a, p c = true) (hx : p x = false) :
    (a ++ x :: b).takeWhile p = a := by
  induction a with
  | nil => simp [List.takeWhile, hx]
  | cons c t ih =>
    simp only [List.cons_append, List.takeWhile_cons, ha c (List.mem_cons_self _ _),
      if_true]
    rw [ih (fun d hd => ha d (List.mem_cons_of_mem _ hd))]

theorem dropWhile_append_stop (p : Char → Bool) (a : PyStr) (x : Char) (b : PyStr)
    (ha : ∀ c ∈ a, p c = true) (hx : p x = false) :
    (a ++ x :: b).dropWhile p = x :: b := by
  induction a with
  | nil => simp [List.dropWhile, hx]
  | cons c t ih =>
    simp only [List.cons_append, List.dropWhile_cons, ha c (List.mem_cons_self _ _),
      if_true]
    exact ih (fun d hd => ha d (List.mem_cons_of_mem _ hd))

theorem dropWhile_eq_self_of_head (p : Char → Bool) (l : PyStr)
    (h : ∀ c, l.head? = some c → p c = false) : l.dropWhile p = l := by
  cases l with
  | nil => rfl
  | cons c t => simp [List.dropWhile_cons, h c rfl]

theorem trimLeft_eq_self (l : PyStr) (h : ∀ c, l.head? = some c → pyIsSpace c = false) :
    trimLeft l = l := dropWhile_eq_self_of_head _ _ h

theorem trimRight_eq_self (l : PyStr)
    (h : ∀ c, l.getLast? = some c → pyIsSpace c = false) : trimRight l = l := by
  unfold trimRight
  rw [dropWhile_eq_self_of_head _ _ (by intro c hc; apply h; rwa [List.getLast?_eq_head?_reverse]),
    List.reverse_reverse]

theorem dropWhile_eq_self_of_all (p : Char → Bool) (l : PyStr)
    (h : ∀ c ∈ l, p c = false) : l.dropWhile p = l := by
  cases l with
  | nil => rfl
  | cons c t => simp [List.dropWhile_cons, h c (List.mem_cons_self _ _)]

theorem pyStrip_eq_self_of_no_space (l : PyStr) (h : ∀ c ∈ l, pyIsSpace c = false) :
    pyStrip l = l := by
  unfold pyStrip trimLeft trimRight
  rw [dropWhile_eq_self_of_all _ l h,
    dropWhile_eq_self_of_all _ l.reverse (fun c hc => h c (List.mem_reverse.mp hc)),
    List.reverse_reverse]

theorem canonDec_canon (n : Int) (e : Nat) : CanonD (canonDec n e) := by
  induction e generalizing n with
  | zero => left; rfl
  | succ e ih =>
    unfold canonDec
    by_cases h : n % 10 = 0
    · rw [if_pos h]; exact ih (n / 10)
    · rw [if_neg h]; right; exact h

theorem parsePyFloat_canon (l : PyStr) (d : Dec) (h : parsePyFloat l = some d) :
    CanonD d := by
  unfold parsePyFloat at h
  cases l with
  | nil => exact absurd h (by simp)
  | cons c r =>
    by_cases h1 : c = '-' <;> by_cases h2 : c = '+' <;>
      simp only [h1, h2, if_pos, if_neg, if_true, if_false, reduceIte] at h <;>
      (cases hp : parseDecCore r with
        | none => first
          | (rw [hp] at h; exact absurd h (by simp))
          | (cases hp2 : parseDecCore (c :: r) with
              | none => rw [hp2] at h; exact absurd h (by simp)
              | some d0 => rw [hp2] at h; simp at h; rw [← h]; exact canonDec_canon _ _)
        | some d0 => first
          | (rw [hp] at h; simp at h; rw [← h]; exact canonDec_canon _ _)
          | (cases hp2 : parseDecCore (c :: r) with
              | none => rw [hp2] at h; exact absurd h (by simp)
              | some d1 => rw [hp2] at h; simp at h; rw [← h]; exact canonDec_canon _ _))

theorem isDig_not_space (c : Char) (h : isDig c = true) : pyIsSpace c = false := by
  unfold isDig at h
  unfold pyIsSpace
  simp only [Bool.and_eq_true, decide_eq_true_eq] at h
  simp only [Bool.or_eq_false_iff, decide_eq_false_iff_not]
  refine ⟨⟨⟨⟨⟨?_, ?_⟩, ?_⟩, ?_⟩, ?_⟩, ?_⟩ <;>
    (intro hc; subst hc; exact absurd h (by decide))

theorem isDig_ne_minus (c : Char) (h : isDig c = true) : c ≠ '-' := by
  intro hc; subst hc; exact absurd h (by decide)

theorem isDig_ne_plus (c : Char) (h : isDig c = true) : c ≠ '+' := by
  intro hc; subst hc; exact absurd h (by decide)

theorem parseDecCore_print (m e : Nat) (he : 1 ≤ e) :
    parseDecCore (natToChars (m / 10 ^ e) ++ '.' ::
      (List.replicate (e - (natToChars (m % 10 ^ e)).length) '0' ++
        natToChars (m % 10 ^ e))) = some ⟨(m : Int), e⟩ := by
  have hic := natToChars_all_isDig (m / 10 ^ e)
  have hdot : isDig '.' = false := by decide
  have hfrall : ∀ c ∈ List.replicate (e - (natToChars (m % 10 ^ e)).length) '0' ++
      natToChars (m % 10 ^ e), isDig c = true := by
    intro c hc
    rcases List.mem_append.mp hc with h1 | h2
    · rw [List.eq_of_mem_replicate h1]; decide
    · exact natToChars_all_isDig _ c h2
  have hlen : (natToChars (m % 10 ^ e)).length ≤ e :=
    natToChars_length_le _ e he (Nat.mod_lt m (Nat.pos_pow_of_pos e (by norm_num)))
  unfold parseDecCore
  rw [takeWhile_append_stop isDig _ '.' _ hic hdot,
    dropWhile_append_stop isDig _ '.' _ hic hdot]
  simp only []
  rw [if_pos]
  · congr 1
    have hfrlen : (List.replicate (e - (natToChars (m % 10 ^ e)).length) '0' ++
        natToChars (m % 10 ^ e)).length = e := by
      simp only [List.length_append, List.length_replicate]
      omega
    have hfrval : digitsVal (List.replicate (e - (natToChars (m % 10 ^ e)).length) '0' ++
        natToChars (m % 10 ^ e)) = m % 10 ^ e := by
      rw [digitsVal_replicate_zero, digitsVal_natToChars]
    rw [hfrlen, hfrval, digitsVal_natToChars]
    have : m / 10 ^ e * 10 ^ e + m % 10 ^ e = m := by
      rw [Nat.mul_comm]
      exact Nat.div_add_mod m (10 ^ e)
    simp only [Dec.mk.injEq, and_true]
    exact_mod_cast this
  · constructor
    · rw [List.all_eq_true]
      exact hfrall
    · intro ⟨h1, _⟩
      rw [List.isEmpty_iff] at h1
      exact natToChars_ne_nil _ h1

theorem canonDec_mul_ten (n : Int) : canonDec (n * 10) 1 = ⟨n, 0⟩ := by
  show (if (n * 10) % 10 = 0 then canonDec (n * 10 / 10) 0 else ⟨n * 10, 1⟩) = _
  rw [if_pos (Int.mul_emod_left n 10), Int.mul_ediv_cancel n (by norm_num)]
  rfl

theorem canonDec_succ_not_dvd (n : Int) (e : Nat) (h : n % 10 ≠ 0) :
    canonDec n (e + 1) = ⟨n, e + 1⟩ := by
  show (if n % 10 = 0 then canonDec (n / 10) e else ⟨n, e + 1⟩) = _
  rw [if_neg h]

theorem canonDec_scaled (n : Int) (ex : Nat) (h : ex = 0 ∨ n % 10 ≠ 0) :
    canonDec (n * 10 ^ (max ex 1 - ex)) (max ex 1) = ⟨n, ex⟩ := by
  by_cases hex : ex = 0
  · subst hex
    rw [show max 0 1 - 0 = 1 from rfl, show max 0 1 = 1 from rfl, pow_one]
    exact canonDec_mul_ten n
  · have hnd : n % 10 ≠ 0 := h.resolve_left hex
    obtain ⟨k, rfl⟩ : ∃ k, ex = k + 1 := ⟨ex - 1, by omega⟩
    have h1 : max (k + 1) 1 = k + 1 := by omega
    rw [h1, Nat.sub_self, pow_zero, mul_one]
    exact canonDec_succ_not_dvd n k hnd

theorem parsePyFloat_decToChars (d : Dec) (h : CanonD d) :
    parsePyFloat (decToChars d) = some d := by
  obtain ⟨n, ex⟩ := d
  have hcore := parseDecCore_print (n.natAbs * 10 ^ (max ex 1 - ex)) (max ex 1)
    (le_max_right _ _)
  by_cases hneg : n < 0
  · have hdec : decToChars ⟨n, ex⟩ =
        '-' :: (natToChars (n.natAbs * 10 ^ (max ex 1 - ex) / 10 ^ max ex 1) ++ '.' ::
          (List.replicate (max ex 1 -
              (natToChars (n.natAbs * 10 ^ (max ex 1 - ex) % 10 ^ max ex 1)).length) '0' ++
            natToChars (n.natAbs * 10 ^ (max ex 1 - ex) % 10 ^ max ex 1))) := by
      simp only [decToChars, if_pos hneg]
      rfl
    rw [hdec]
    simp only [parsePyFloat, reduceIte]
    rw [hcore]
    simp only [Option.map_some']
    have harg : -((n.natAbs * 10 ^ (max ex 1 - ex) : Nat) : Int) =
        n * 10 ^ (max ex 1 - ex) := by
      push_cast
      rw [abs_of_neg hneg]
      ring
    show some (canonDec (-((n.natAbs * 10 ^ (max ex 1 - ex) : Nat) : Int)) (max ex 1)) = _
    rw [harg, canonDec_scaled n ex (by rcases h with h0 | h1; exact Or.inl h0; exact Or.inr h1)]
  · have hdec : decToChars ⟨n, ex⟩ =
        natToChars (n.natAbs * 10 ^ (max ex 1 - ex) / 10 ^ max ex 1) ++ '.' ::
          (List.replicate (max ex 1 -
              (natToChars (n.natAbs * 10 ^ (max ex 1 - ex) % 10 ^ max ex 1)).length) '0' ++
            natToChars (n.natAbs * 10 ^ (max ex 1 - ex) % 10 ^ max ex 1)) := by
      simp only [decToChars, if_neg hneg]
      rfl
    obtain ⟨c, ict, hic⟩ := List.exists_cons_of_ne_nil
      (natToChars_ne_nil (n.natAbs * 10 ^ (max ex 1 - ex) / 10 ^ max ex 1))
    have hcd : isDig c = true := by
      apply natToChars_all_isDig (n.natAbs * 10 ^ (max ex 1 - ex) / 10 ^ max ex 1)
      rw [hic]
      exact List.mem_cons_self _ _
    rw [hdec, hic]
    simp only [List.cons_append, parsePyFloat]
    rw [if_neg (isDig_ne_minus c hcd), if_neg (isDig_ne_plus c hcd),
      ← List.cons_append, ← hic, hcore]
    simp only [Option.map_some']
    have harg : ((n.natAbs * 10 ^ (max ex 1 - ex) : Nat) : Int) =
        n * 10 ^ (max ex 1 - ex) := by
      push_cast
      rw [abs_of_nonneg (not_lt.mp hneg)]
    show some (canonDec ((n.natAbs * 10 ^ (max ex 1 - ex) : Nat) : Int) (max ex 1)) = _
    rw [harg, canonDec_scaled n ex (by rcases h with h0 | h1; exact Or.inl h0; exact Or.inr h1)]

/-! Idempotence machinery for `strip` and the normaliser. -/

theorem head_dropWhile_not (p : Char → Bool) (l : PyStr) (c : Char)
    (h : (l.dropWhile p).head? = some c) : p c = false := by
  induction l with
  | nil => simp [List.dropWhile] at h
  | cons x xs ih =>
    rw [List.dropWhile_cons] at h
    by_cases hx : p x
    · rw [if_pos hx] at h
      exact ih h
    · rw [if_neg hx] at h
      simp only [List.head?_cons, Option.some.injEq] at h
      rw [← h]
      exact eq_false_of_ne_true hx

theorem dropWhile_idem (p : Char → Bool) (l : PyStr) :
    (l.dropWhile p).dropWhile p = l.dropWhile p :=
  dropWhile_eq_self_of_head p _ (fun c hc => head_dropWhile_not p l c hc)

theorem trimRight_idem (l : PyStr) : trimRight (trimRight l) = trimRight l := by
  unfold trimRight
  rw [List.reverse_reverse, dropWhile_idem]

theorem trimRight_prefix (l : PyStr) : trimRight l <+: l := by
  unfold trimRight
  have h := List.reverse_prefix.mpr (List.dropWhile_suffix (l := l.reverse) pyIsSpace)
  simpa using h

theorem pyStrip_idem (l : PyStr) : pyStrip (pyStrip l) = pyStrip l := by
  unfold pyStrip
  have h1 : trimLeft (trimRight (trimLeft l)) = trimRight (trimLeft l) := by
    apply trimLeft_eq_self
    intro c hc
    obtain ⟨s, hs⟩ := trimRight_prefix (trimLeft l)
    cases ht : trimRight (trimLeft l) with
    | nil => rw [ht] at hc; exact absurd hc (by simp)
    | cons x t =>
      rw [ht] at hc
      simp only [List.head?_cons, Option.some.injEq] at hc
      rw [ht] at hs
      unfold trimLeft at hs
      apply head_dropWhile_not pyIsSpace l c
      rw [← hs, ← hc]
      rfl
  rw [h1, trimRight_idem]

theorem decToChars_chars (d : Dec) :
    ∀ c ∈ decToChars d, isDig c = true ∨ c = '-' ∨ c = '.' := by
  intro c hc
  simp only [decToChars] at hc
  rcases List.mem_append.mp hc with h1 | h2
  · rcases List.mem_append.mp h1 with ha | hb
    · right; left
      by_cases hn : d.num < 0
      · rw [if_pos hn] at ha
        simpa using ha
      · rw [if_neg hn] at ha
        exact absurd ha (by simp)
    · left
      exact natToChars_all_isDig _ c hb
  · rcases List.mem_cons.mp h2 with h5 | h6
    · right; right; exact h5
    · rcases List.mem_append.mp h6 with h7 | h8
      · left
        rw [List.eq_of_mem_replicate h7]
        decide
      · left
        exact natToChars_all_isDig _ c h8

theorem pyStrip_decToChars (d : Dec) : pyStrip (decToChars d) = decToChars d := by
  apply pyStrip_eq_self_of_no_space
  intro c hc
  rcases decToChars_chars d c hc with h | h | h
  · exact isDig_not_space c h
  · rw [h]; decide
  · rw [h]; decide

theorem valFormat_eq_num (l : PyStr) (d : Dec) (h : parsePyFloat (pyStrip l) = some d) :
    valFormat l = .num d := by
  simp only [valFormat, h]

theorem valFormat_eq_not_num (l : PyStr) (h : parsePyFloat (pyStrip l) = none) :
    valFormat l =
      (if pyLower (pyStrip l) ∈ [S "true", S "yes", S "on"] then PyVal.bool true
       else if pyLower (pyStrip l) ∈ [S "false", S "no", S "off"] then PyVal.bool false
       else PyVal.text (pyStrip l)) := by
  simp only [valFormat, h]

/-- C4: the value normaliser is idempotent — renormalising the Python
string form of a normalised value gives the same value:
`__valFormat(str(__valFormat(x))) = __valFormat(x)` for every string `x`. -/
theorem valFormat_idempotent (x : PyStr) :
    valFormat (pyStr (valFormat x)) = valFormat x := by
  cases hp : parsePyFloat (pyStrip x) with
  | some d =>
    rw [valFormat_eq_num x d hp]
    have hc : CanonD d := parsePyFloat_canon _ d hp
    rw [show pyStr (PyVal.num d) = decToChars d from rfl]
    exact valFormat_eq_num _ d
      (by rw [pyStrip_decToChars d]; exact parsePyFloat_decToChars d hc)
  | none =>
    rw [valFormat_eq_not_num x hp]
    by_cases h1 : pyLower (pyStrip x) ∈ [S "true", S "yes", S "on"]
    · rw [if_pos h1]
      show valFormat (S "True") = PyVal.bool true
      decide
    · rw [if_neg h1]
      by_cases h2 : pyLower (pyStrip x) ∈ [S "false", S "no", S "off"]
      · rw [if_pos h2]
        show valFormat (S "False") = PyVal.bool false
        decide
      · rw [if_neg h2]
        show valFormat (pyStrip x) = PyVal.text (pyStrip x)
        have hps : pyStrip (pyStrip x) = pyStrip x := pyStrip_idem x
        rw [valFormat_eq_not_num (pyStrip x) (by rw [hps]; exact hp)]
        rw [hps, if_neg h1, if_neg h2]

/-! Further string lemmas shared by the parser theorems. -/

theorem mem_pyStrip (l : PyStr) (c : Char) (h : c ∈ pyStrip l) : c ∈ l := by
  unfold pyStrip trimLeft trimRight at h
  rw [List.mem_reverse] at h
  have h2 := (List.dropWhile_suffix pyIsSpace).mem h
  rw [List.mem_reverse] at h2
  exact (List.dropWhile_suffix pyIsSpace).mem h2

theorem pyStrip_eq_nil_of_all_space (l : PyStr) (h : ∀ c ∈ l, pyIsSpace c = true) :
    pyStrip l = [] := by
  unfold pyStrip trimLeft
  rw [List.dropWhile_eq_nil_iff.mpr h]
  rfl

theorem pyStrip_eq_self_of_edges (l : PyStr)
    (h1 : ∀ c, l.head? = some c → pyIsSpace c = false)
    (h2 : ∀ c, l.getLast? = some c → pyIsSpace c = false) : pyStrip l = l := by
  unfold pyStrip
  rw [trimLeft_eq_self l h1]
  exact trimRight_eq_self l h2

theorem pyStrip_parts (l : PyStr) (h : pyStrip l = l) :
    trimLeft l = l ∧ trimRight l = l := by
  have hsuf : trimLeft l <:+ l := List.dropWhile_suffix pyIsSpace
  have hpre : trimRight (trimLeft l) <+: trimLeft l := trimRight_prefix (trimLeft l)
  have hlen : (trimLeft l).length = l.length := by
    have e1 := hsuf.length_le
    have e2 := hpre.length_le
    unfold pyStrip at h
    have e3 : (trimRight (trimLeft l)).length = l.length := by rw [h]
    omega
  have hL : trimLeft l = l := hsuf.eq_of_length hlen
  refine ⟨hL, ?_⟩
  rw [← hL]
  unfold pyStrip at h
  rw [hL] at h ⊢
  exact h

theorem pyStrip_head (l : PyStr) (h : pyStrip l = l) :
    ∀ c, l.head? = some c → pyIsSpace c = false := by
  intro c hc
  obtain ⟨hL, _⟩ := pyStrip_parts l h
  unfold trimLeft at hL
  apply head_dropWhile_not pyIsSpace l c
  rw [hL]
  exact hc

theorem pyStrip_getLast (l : PyStr) (h : pyStrip l = l) :
    ∀ c, l.getLast? = some c → pyIsSpace c = false := by
  intro c hc
  obtain ⟨_, hR⟩ := pyStrip_parts l h
  unfold trimRight at hR
  apply head_dropWhile_not pyIsSpace l.reverse c
  have : l.reverse.dropWhile pyIsSpace = l.reverse := by
    have := congrArg List.reverse hR
    rwa [List.reverse_reverse] at this
  rw [this, List.head?_reverse]
  exact hc

theorem trimRight_append_edge (x s : PyStr) (hs : s ≠ [])
    (h : ∀ c, s.getLast? = some c → pyIsSpace c = false) :
    trimRight (x ++ s) = x ++ s := by
  apply trimRight_eq_self
  intro c hc
  rw [List.getLast?_append] at hc
  cases hsl : s.getLast? with
  | none => exact absurd (List.getLast?_eq_none_iff.mp hsl) hs
  | some d =>
    rw [hsl] at hc
    simp only [Option.or_some, Option.some.injEq] at hc
    rw [← hc]
    exact h d hsl

theorem pyStrip_cons_space (l : PyStr) : pyStrip (' ' :: l) = pyStrip l := by
  unfold pyStrip trimLeft
  rw [List.dropWhile_cons, if_pos (by decide)]

theorem splitFirst_none (c : Char) (l : PyStr) (h : c ∉ l) : splitFirst c l = none := by
  induction l with
  | nil => rfl
  | cons x xs ih =>
    unfold splitFirst
    rw [if_neg (by intro hx; exact h (hx ▸ List.mem_cons_self _ _)),
      ih (fun hm => h (List.mem_cons_of_mem _ hm))]
    rfl

theorem splitFirst_first (c : Char) (a b : PyStr) (h : c ∉ a) :
    splitFirst c (a ++ c :: b) = some (a, b) := by
  induction a with
  | nil => simp [splitFirst]
  | cons x xs ih =>
    rw [List.cons_append]
    show (if x = c then some ([], xs ++ c :: b)
      else (splitFirst c (xs ++ c :: b)).map fun p => (x :: p.1, p.2)) = _
    rw [if_neg (by intro hx; exact h (hx ▸ List.mem_cons_self _ _)),
      ih (fun hm => h (List.mem_cons_of_mem _ hm))]
    rfl

/-! Line-splitting lemmas and the first parser claims. -/

theorem splitlinesAcc_no_break (l : PyStr) :
    ∀ acc : PyStr, (∀ c ∈ l, c ≠ '\n' ∧ c ≠ '\r') → acc.reverse ++ l ≠ [] →
      splitlinesAcc l acc = [acc.reverse ++ l] := by
  induction l with
  | nil =>
    intro acc _ hne
    unfold splitlinesAcc
    rw [if_neg (by simpa using hne)]
    simp
  | cons c r ih =>
    intro acc h _
    unfold splitlinesAcc
    rw [if_neg (by
      obtain ⟨h1, h2⟩ := h c (List.mem_cons_self _ _)
      simp [h1, h2])]
    rw [ih (c :: acc) (fun d hd => h d (List.mem_cons_of_mem _ hd)) (by simp)]
    simp

theorem splitlines_no_break (l : PyStr) (h : ∀ c ∈ l, c ≠ '\n' ∧ c ≠ '\r')
    (hne : l ≠ []) : splitlines l = [l] := by
  unfold splitlines
  rw [if_neg hne, splitlinesAcc_no_break l [] h (by simpa using hne)]
  simp

theorem splitlinesAcc_newline (l : PyStr) :
    ∀ (acc rest : PyStr), (∀ c ∈ l, c ≠ '\n' ∧ c ≠ '\r') →
      splitlinesAcc (l ++ '\n' :: rest) acc =
        (acc.reverse ++ l) :: splitlinesAcc rest [] := by
  induction l with
  | nil =>
    intro acc rest _
    rw [List.nil_append]
    show (if '\n' = '\n' ∨ '\n' = '\r' then acc.reverse :: splitlinesAcc rest []
      else splitlinesAcc rest ('\n' :: acc)) = _
    rw [if_pos (Or.inl rfl)]
    simp
  | cons c r ih =>
    intro acc rest h
    rw [List.cons_append]
    show (if c = '\n' ∨ c = '\r' then acc.reverse :: splitlinesAcc (r ++ '\n' :: rest) []
      else splitlinesAcc (r ++ '\n' :: rest) (c :: acc)) = _
    rw [if_neg (by
      obtain ⟨h1, h2⟩ := h c (List.mem_cons_self _ _)
      simp [h1, h2])]
    rw [ih (c :: acc) rest (fun d hd => h d (List.mem_cons_of_mem _ hd))]
    simp

theorem splitlines_newline (l rest : PyStr) (h : ∀ c ∈ l, c ≠ '\n' ∧ c ≠ '\r') :
    splitlines (l ++ '\n' :: rest) = l :: splitlinesAcc rest [] := by
  unfold splitlines
  rw [if_neg (by simp), splitlinesAcc_newline l [] rest h]
  simp

theorem pyStrip_ne_nil_of_head (c : Char) (l : PyStr) (hc : pyIsSpace c = false) :
    pyStrip (c :: l) ≠ [] := by
  unfold pyStrip trimLeft
  rw [List.dropWhile_cons, if_neg (by simp [hc])]
  unfold trimRight
  simp only [ne_eq, List.reverse_eq_nil_iff]
  intro hcon
  have := List.dropWhile_eq_nil_iff.mp hcon c (by simp)
  rw [hc] at this
  exact Bool.false_ne_true this

theorem proto_head (l : PyStr)
    (h : (S "+OK").isPrefixOf l = true ∨ (S "-ERR").isPrefixOf l = true ∨
      (S "!").isPrefixOf l = true) :
    ∃ c t, l = c :: t ∧ pyIsSpace c = false := by
  rcases h with h | h | h <;>
    (rw [List.isPrefixOf_iff_prefix] at h
     obtain ⟨t, ht⟩ := h
     exact ⟨_, _, by rw [← ht]; rfl, by decide⟩)

theorem findProtoLine_cons_of_proto (l : PyStr) (X : List PyStr)
    (hp : (S "+OK").isPrefixOf l = true ∨ (S "-ERR").isPrefixOf l = true ∨
      (S "!").isPrefixOf l = true) :
    findProtoLine (l :: X) = findProtoLine [l] := by
  by_cases h1 : (S "+OK").isPrefixOf l
  · simp [findProtoLine, h1]
  · by_cases h2 : (S "-ERR").isPrefixOf l
    · simp [findProtoLine, h1, h2]
    · by_cases h3 : (S "!").isPrefixOf l
      · simp [findProtoLine, h1, h2, h3]
      · rcases hp with h | h | h <;> simp_all

/-- C10: `Tesira.__parseResponse` consumes only the first protocol line of
its buffer — appending anything after the first newline never changes the
result, so when a synchronous `send_wait` buffer carries several protocol
lines every frame after the first is lost. -/
theorem parseResponse_first_line_only (l rest : PyStr)
    (hnb : ∀ c ∈ l, c ≠ '\n' ∧ c ≠ '\r')
    (hp : (S "+OK").isPrefixOf l = true ∨ (S "-ERR").isPrefixOf l = true ∨
      (S "!").isPrefixOf l = true) :
    parseResponse (l ++ '\n' :: rest) = parseResponse l := by
  obtain ⟨c, t, hl, hc⟩ := proto_head l hp
  unfold parseResponse
  rw [splitlines_newline l rest hnb, splitlines_no_break l hnb (by rw [hl]; simp)]
  rw [if_neg (by rw [hl, List.cons_append]; exact pyStrip_ne_nil_of_head c _ hc),
    if_neg (by rw [hl]; exact pyStrip_ne_nil_of_head c t hc)]
  rw [findProtoLine_cons_of_proto l _ hp]

/-- Closed instance of `parseResponse_first_line_only`: a buffer holding a
bare ack and then an error line parses exactly as the ack alone. -/
theorem parseResponse_first_line_only_witness :
    parseResponse (S "+OK" ++ '\n' :: S "-ERR cannot parse") =
      parseResponse (S "+OK") :=
  parseResponse_first_line_only (S "+OK") (S "-ERR cannot parse")
    (by decide) (by decide)

/-- C2 (code-bug evidence): the read loop's prefix filter tests `+ERR`
where its own comment (and the parser) say `-ERR`.  A `-ERR` segment is
silently discarded and never yields an `Error` frame, while a `+ERR`
segment is handed to the frame processor whose parse then fails. -/
theorem readLoop_err_prefix_bug :
    readLoopHanded (S "-ERR cannot parse\n") = [] ∧
    readLoopHanded (S "+ERR x\n") = [S "+ERR x"] ∧
    parseResponse (S "+ERR x") = .ok (false, none, .noneD) ∧
    parseResponse (S "-ERR cannot parse") =
      .ok (true, some .error, .textD (S "cannot parse")) := by
  refine ⟨by decide, by decide, by decide, by decide⟩

theorem parseResponse_okPrefix (body : PyStr)
    (hnb : ∀ c ∈ body, c ≠ '\n' ∧ c ≠ '\r') :
    parseResponse (S "+OK" ++ body) = parseOkBody (pyStrip body) := by
  unfold parseResponse
  have hsl : splitlines (S "+OK" ++ body) = [S "+OK" ++ body] := by
    apply splitlines_no_break
    · intro c hc
      rcases List.mem_append.mp hc with h | h
      · refine ⟨?_, ?_⟩ <;> (intro he; subst he; revert h; decide)
      · exact hnb c h
    · show '+' :: (S "OK" ++ body) ≠ []
      simp
  rw [if_neg (by
    show pyStrip ('+' :: (S "OK" ++ body)) ≠ []
    exact pyStrip_ne_nil_of_head '+' _ (by decide)), hsl]
  unfold findProtoLine
  rw [if_pos (by rw [List.isPrefixOf_iff_prefix]; exact ⟨body, rfl⟩)]
  rw [show (S "+OK" ++ body).drop 3 = body from rfl]

theorem okBare (b : PyStr)
    (h : ∀ c ∈ b, (pyIsSpace c = true ∨ c = '"') ∧ c ≠ '\n' ∧ c ≠ '\r') :
    parseResponse (S "+OK" ++ b) =
      .ok (true, some .ok, .textD (S "cmd_response_ok")) := by
  rw [parseResponse_okPrefix b (fun c hc => (h c hc).2)]
  unfold parseOkBody
  rw [splitFirst_none ':' (pyStrip b) (by
    intro hm
    rcases (h _ (mem_pyStrip b ':' hm)).1 with hws | hq
    · exact absurd hws (by decide)
    · exact absurd hq (by decide))]
  rw [if_pos (by
    apply pyStrip_eq_nil_of_all_space
    intro c hc
    unfold removeAll at hc
    rw [List.mem_filter] at hc
    rcases (h c (mem_pyStrip b c hc.1)).1 with hws | hq
    · exact hws
    · exact absurd hc.2 (by rw [hq]; decide))]

theorem okValue (s : PyStr) (hs : pyStrip s = s)
    (hnb : ∀ c ∈ s, c ≠ '\n' ∧ c ≠ '\r') :
    parseResponse (S "+OK \"value\":" ++ s) =
      .ok (true, some .ok, .valD (valFormat (removeAll '"' s))) := by
  rw [show S "+OK \"value\":" ++ s = S "+OK" ++ (' ' :: (S "\"value\":" ++ s)) from rfl]
  rw [parseResponse_okPrefix _ (by
    intro c hc
    rcases List.mem_cons.mp hc with rfl | hc2
    · exact ⟨by decide, by decide⟩
    · rcases List.mem_append.mp hc2 with h | h
      · refine ⟨?_, ?_⟩ <;> (intro he; subst he; revert h; decide)
      · exact hnb c h)]
  rw [pyStrip_cons_space]
  have hline : pyStrip (S "\"value\":" ++ s) = S "\"value\":" ++ s := by
    apply pyStrip_eq_self_of_edges
    · intro c hc
      rw [show (S "\"value\":" ++ s).head? = some '"' from rfl] at hc
      simp only [Option.some.injEq] at hc
      rw [← hc]
      decide
    · intro c hc
      rw [List.getLast?_append] at hc
      cases hsl : s.getLast? with
      | none =>
        rw [hsl] at hc
        simp only [Option.none_or] at hc
        rw [show (S "\"value\":").getLast? = some ':' from rfl] at hc
        simp only [Option.some.injEq] at hc
        rw [← hc]
        decide
      | some d =>
        rw [hsl] at hc
        simp only [Option.or_some, Option.some.injEq] at hc
        rw [← hc]
        exact pyStrip_getLast s hs d hsl
  rw [hline]
  rw [show S "\"value\":" ++ s = S "\"value\"" ++ ':' :: s from rfl]
  simp only [parseOkBody, splitFirst_first ':' (S "\"value\"") s (by decide)]
  rw [show removeAll '"' (S "\"value\"") = S "value" from by decide]
  rw [if_pos rfl, hs]

theorem joinQuoted_not_mem (c : Char) (ts : List PyStr) (hc1 : c ≠ '"') (hc2 : c ≠ ' ')
    (h : ∀ t ∈ ts, c ∉ t) : c ∉ joinQuoted ts := by
  induction ts with
  | nil => simp [joinQuoted]
  | cons t rest ih =>
    cases rest with
    | nil =>
      show c ∉ '"' :: t ++ ['"']
      intro hm
      rcases List.mem_cons.mp hm with h1 | h1
      · exact hc1 h1
      · rcases List.mem_append.mp h1 with h2 | h2
        · exact h t (List.mem_cons_self _ _) h2
        · exact hc1 (by simpa using h2)
    | cons r rs =>
      show c ∉ '"' :: t ++ '"' :: ' ' :: joinQuoted (r :: rs)
      intro hm
      rcases List.mem_cons.mp hm with h1 | h1
      · exact hc1 h1
      · rcases List.mem_append.mp h1 with h2 | h2
        · exact h t (List.mem_cons_self _ _) h2
        · rcases List.mem_cons.mp h2 with h3 | h3
          · exact hc1 h3
          · rcases List.mem_cons.mp h3 with h4 | h4
            · exact hc2 h4
            · exact ih (fun u hu => h u (List.mem_cons_of_mem _ hu)) h4

theorem joinQuoted_ne_nil (ts : List PyStr) (h : ts ≠ []) : joinQuoted ts ≠ [] := by
  cases ts with
  | nil => exact absurd rfl h
  | cons t rest =>
    cases rest with
    | nil => show '"' :: t ++ ['"'] ≠ []; simp
    | cons r rs => show '"' :: t ++ '"' :: ' ' :: joinQuoted (r :: rs) ≠ []; simp

theorem joinQuoted_head (ts : List PyStr) (h : ts ≠ []) :
    ∃ j, joinQuoted ts = '"' :: j := by
  cases ts with
  | nil => exact absurd rfl h
  | cons t rest =>
    cases rest with
    | nil => exact ⟨t ++ ['"'], rfl⟩
    | cons r rs => exact ⟨t ++ '"' :: ' ' :: joinQuoted (r :: rs), rfl⟩

theorem joinQuoted_getLast (ts : List PyStr) (h : ts ≠ []) :
    (joinQuoted ts).getLast? = some '"' := by
  induction ts with
  | nil => exact absurd rfl h
  | cons t rest ih =>
    cases rest with
    | nil =>
      show ('"' :: t ++ ['"']).getLast? = some '"'
      rw [show '"' :: t ++ ['"'] = ('"' :: t) ++ ['"'] from rfl]
      exact List.getLast?_concat _
    | cons r rs =>
      show ('"' :: t ++ '"' :: ' ' :: joinQuoted (r :: rs)).getLast? = some '"'
      rw [show '"' :: t ++ '"' :: ' ' :: joinQuoted (r :: rs) =
        ('"' :: t ++ ['"', ' ']) ++ joinQuoted (r :: rs) from by simp]
      rw [List.getLast?_append, ih (by simp)]
      rfl

theorem quotedScan_no_quote_acc (t : PyStr) (x : PyStr) (ht : '"' ∉ t) :
    ∀ acc : PyStr, quotedScan (t ++ '"' :: x) (some acc) =
      (acc.reverse ++ t) :: quotedScan x none := by
  induction t with
  | nil =>
    intro acc
    show (if '"' = '"' then acc.reverse :: quotedScan x none
      else quotedScan x (some ('"' :: acc))) = _
    rw [if_pos rfl]
    simp
  | cons c ct ih =>
    intro acc
    rw [List.cons_append]
    show (if c = '"' then acc.reverse :: quotedScan (ct ++ '"' :: x) none
      else quotedScan (ct ++ '"' :: x) (some (c :: acc))) = _
    rw [if_neg (by intro he; exact ht (he ▸ List.mem_cons_self _ _))]
    rw [ih (fun hm => ht (List.mem_cons_of_mem _ hm)) (c :: acc)]
    simp

theorem quotedItems_join (ts : List PyStr) (h : ∀ t ∈ ts, '"' ∉ t) :
    quotedItems (joinQuoted ts) = ts := by
  induction ts with
  | nil => rfl
  | cons t rest ih =>
    cases rest with
    | nil =>
      show quotedScan ('"' :: (t ++ ['"'])) none = [t]
      rw [show quotedScan ('"' :: (t ++ ['"'])) none =
        quotedScan (t ++ ['"']) (some []) from by simp [quotedScan]]
      rw [show (t ++ ['"'] : PyStr) = t ++ '"' :: [] from rfl]
      rw [quotedScan_no_quote_acc t [] (h t (List.mem_cons_self _ _)) []]
      rfl
    | cons r rs =>
      show quotedScan ('"' :: (t ++ '"' :: ' ' :: joinQuoted (r :: rs))) none = _
      rw [show quotedScan ('"' :: (t ++ '"' :: ' ' :: joinQuoted (r :: rs))) none =
        quotedScan (t ++ '"' :: (' ' :: joinQuoted (r :: rs))) (some []) from by
          simp [quotedScan]]
      rw [quotedScan_no_quote_acc t _ (h t (List.mem_cons_self _ _)) []]
      rw [show quotedScan (' ' :: joinQuoted (r :: rs)) none =
        quotedScan (joinQuoted (r :: rs)) none from by simp [quotedScan]]
      rw [show quotedScan (joinQuoted (r :: rs)) none =
        quotedItems (joinQuoted (r :: rs)) from rfl]
      rw [ih (fun u hu => h u (List.mem_cons_of_mem _ hu))]
      rfl

theorem trimRight_append_space (x : PyStr) : trimRight (x ++ [' ']) = trimRight x := by
  unfold trimRight
  rw [List.reverse_append]
  rfl

theorem okList (ts : List PyStr)
    (h : ∀ t ∈ ts, ∀ c ∈ t, c ≠ '"' ∧ c ≠ ']' ∧ c ≠ '\n' ∧ c ≠ '\r') :
    parseResponse (S "+OK \"list\":[ " ++ joinQuoted ts ++ S " ]") =
      .ok (true, some .ok, .listD (ts.map valFormat)) := by
  by_cases hts : ts = []
  · subst hts
    decide
  · have hq : ∀ t ∈ ts, '"' ∉ t := fun t ht hc => ((h t ht _ hc).1 rfl)
    have hbr : ']' ∉ joinQuoted ts :=
      joinQuoted_not_mem ']' ts (by decide) (by decide)
        (fun t ht hc => ((h t ht _ hc).2.1 rfl))
    have hnl : '\n' ∉ joinQuoted ts :=
      joinQuoted_not_mem '\n' ts (by decide) (by decide)
        (fun t ht hc => ((h t ht _ hc).2.2.1 rfl))
    have hcr : '\r' ∉ joinQuoted ts :=
      joinQuoted_not_mem '\r' ts (by decide) (by decide)
        (fun t ht hc => ((h t ht _ hc).2.2.2 rfl))
    obtain ⟨j0, hj0⟩ := joinQuoted_head ts hts
    have hstep1 : S "+OK \"list\":[ " ++ joinQuoted ts ++ S " ]" =
        S "+OK" ++ (' ' :: ((S "\"list\":[ " ++ joinQuoted ts) ++ S " ]")) := rfl
    rw [hstep1, parseResponse_okPrefix _ (by
      intro c hc
      rcases List.mem_cons.mp hc with rfl | hc2
      · exact ⟨by decide, by decide⟩
      · rcases List.mem_append.mp hc2 with h3 | h3
        · rcases List.mem_append.mp h3 with h4 | h4
          · refine ⟨?_, ?_⟩ <;> (intro he; subst he; revert h4; decide)
          · exact ⟨fun he => hnl (he ▸ h4), fun he => hcr (he ▸ h4)⟩
        · refine ⟨?_, ?_⟩ <;> (intro he; subst he; revert h3; decide))]
    rw [pyStrip_cons_space]
    have hline : pyStrip ((S "\"list\":[ " ++ joinQuoted ts) ++ S " ]") =
        (S "\"list\":[ " ++ joinQuoted ts) ++ S " ]" := by
      apply pyStrip_eq_self_of_edges
      · intro c hc
        rw [show ((S "\"list\":[ " ++ joinQuoted ts) ++ S " ]").head? = some '"' from rfl]
          at hc
        simp only [Option.some.injEq] at hc
        rw [← hc]
        decide
      · intro c hc
        rw [List.getLast?_append] at hc
        rw [show (S " ]").getLast? = some ']' from rfl] at hc
        simp only [Option.or_some, Option.some.injEq] at hc
        rw [← hc]
        decide
    rw [hline]
    have hsplit : splitFirst ':' ((S "\"list\":[ " ++ joinQuoted ts) ++ S " ]") =
        some (S "\"list\"", ('[' :: ' ' :: (joinQuoted ts ++ S " ]"))) := by
      rw [show (S "\"list\":[ " ++ joinQuoted ts) ++ S " ]" =
        S "\"list\"" ++ ':' :: ('[' :: ' ' :: (joinQuoted ts ++ S " ]")) from rfl]
      exact splitFirst_first ':' (S "\"list\"") _ (by decide)
    simp only [parseOkBody, hsplit]
    rw [show removeAll '"' (S "\"list\"") = S "list" from by decide]
    rw [if_neg (by decide), if_pos rfl]
    have hval : pyStrip ('[' :: ' ' :: (joinQuoted ts ++ S " ]")) =
        '[' :: ' ' :: (joinQuoted ts ++ S " ]") := by
      apply pyStrip_eq_self_of_edges
      · intro c hc
        simp only [List.head?_cons, Option.some.injEq] at hc
        rw [← hc]
        decide
      · intro c hc
        rw [show ('[' :: ' ' :: (joinQuoted ts ++ S " ]")) =
          ('[' :: ' ' :: joinQuoted ts) ++ S " ]" from by simp] at hc
        rw [List.getLast?_append,
          show (S " ]").getLast? = some ']' from rfl] at hc
        simp only [Option.or_some, Option.some.injEq] at hc
        rw [← hc]
        decide
    rw [hval]
    rw [show splitFirst '[' ('[' :: ' ' :: (joinQuoted ts ++ S " ]")) =
      some ([], ' ' :: (joinQuoted ts ++ S " ]")) from by simp [splitFirst]]
    have hsplit2 : splitFirst ']' (' ' :: (joinQuoted ts ++ S " ]")) =
        some (' ' :: (joinQuoted ts ++ [' ']), []) := by
      rw [show ' ' :: (joinQuoted ts ++ S " ]") =
        (' ' :: (joinQuoted ts ++ [' '])) ++ ']' :: [] from by
          simp only [List.cons_append, List.append_assoc]
          rfl]
      apply splitFirst_first
      intro hm
      rcases List.mem_cons.mp hm with h1 | h1
      · exact absurd h1 (by decide)
      · rcases List.mem_append.mp h1 with h2 | h2
        · exact hbr h2
        · exact absurd h2 (by decide)
    simp only [hsplit2]
    have hinner : pyStrip (' ' :: (joinQuoted ts ++ [' '])) = joinQuoted ts := by
      rw [pyStrip_cons_space]
      unfold pyStrip
      rw [show trimLeft (joinQuoted ts ++ [' ']) = joinQuoted ts ++ [' '] from by
        apply trimLeft_eq_self
        intro c hc
        rw [hj0] at hc
        simp only [List.cons_append, List.head?_cons, Option.some.injEq] at hc
        rw [← hc]
        decide]
      rw [trimRight_append_space]
      exact trimRight_eq_self _ (by
        intro c hc
        rw [joinQuoted_getLast ts hts] at hc
        simp only [Option.some.injEq] at hc
        rw [← hc]
        decide)
    rw [hinner, quotedItems_join ts hq]

theorem okOther (t rest : PyStr) (hcol : ':' ∉ t)
    (hst : pyStrip (t ++ ':' :: rest) = t ++ ':' :: rest)
    (hnb : ∀ c ∈ t ++ ':' :: rest, c ≠ '\n' ∧ c ≠ '\r')
    (hv : removeAll '"' t ≠ S "value") (hl : removeAll '"' t ≠ S "list") :
    parseResponse (S "+OK " ++ (t ++ ':' :: rest)) =
      .ok (true, some .ok, .textD (t ++ ':' :: rest)) := by
  rw [show S "+OK " ++ (t ++ ':' :: rest) =
    S "+OK" ++ (' ' :: (t ++ ':' :: rest)) from rfl]
  rw [parseResponse_okPrefix _ (by
    intro c hc
    rcases List.mem_cons.mp hc with rfl | hc2
    · exact ⟨by decide, by decide⟩
    · exact hnb c hc2)]
  rw [pyStrip_cons_space, hst]
  simp only [parseOkBody, splitFirst_first ':' t rest hcol]
  rw [if_neg hv, if_neg hl]

/-- C6: the `+OK` body mapping of `__parseResponse`: a bare body of
whitespace and quotes yields the text `cmd_response_ok`; a
`"value":<scalar>` body yields the scalar coerced by the value normaliser
(so `"true"` gives `Bool true` and `-12.5` gives `Number (-12.5)`); a
`"list":[...]` body yields the normalised quote-delimited items in order;
any other `<type>:` body is surfaced verbatim as a textual payload (the
warning branch). -/
theorem parseResponse_ok_mapping :
    (∀ b : PyStr, (∀ c ∈ b, (pyIsSpace c = true ∨ c = '"') ∧ c ≠ '\n' ∧ c ≠ '\r') →
      parseResponse (S "+OK" ++ b) =
        .ok (true, some .ok, .textD (S "cmd_response_ok"))) ∧
    (∀ s : PyStr, pyStrip s = s → (∀ c ∈ s, c ≠ '\n' ∧ c ≠ '\r') →
      parseResponse (S "+OK \"value\":" ++ s) =
        .ok (true, some .ok, .valD (valFormat (removeAll '"' s)))) ∧
    parseResponse (S "+OK \"value\":\"true\"") =
      .ok (true, some .ok, .valD (.bool true)) ∧
    parseResponse (S "+OK \"value\":-12.5") =
      .ok (true, some .ok, .valD (.num ⟨-125, 1⟩)) ∧
    (∀ ts : List PyStr, (∀ t ∈ ts, ∀ c ∈ t, c ≠ '"' ∧ c ≠ ']' ∧ c ≠ '\n' ∧ c ≠ '\r') →
      parseResponse (S "+OK \"list\":[ " ++ joinQuoted ts ++ S " ]") =
        .ok (true, some .ok, .listD (ts.map valFormat))) ∧
    (∀ t rest : PyStr, ':' ∉ t → pyStrip (t ++ ':' :: rest) = t ++ ':' :: rest →
      (∀ c ∈ t ++ ':' :: rest, c ≠ '\n' ∧ c ≠ '\r') →
      removeAll '"' t ≠ S "value" → removeAll '"' t ≠ S "list" →
      parseResponse (S "+OK " ++ (t ++ ':' :: rest)) =
        .ok (true, some .ok, .textD (t ++ ':' :: rest))) :=
  ⟨okBare, okValue, by decide, by decide, okList, okOther⟩

/-- Closed instances of every quantified part of
`parseResponse_ok_mapping`, with its hypotheses discharged on concrete
ingress lines. -/
theorem parseResponse_ok_mapping_witness :
    parseResponse (S "+OK" ++ S " \"\" ") =
      .ok (true, some .ok, .textD (S "cmd_response_ok")) ∧
    parseResponse (S "+OK \"value\":" ++ S "\"yes\"") =
      .ok (true, some .ok, .valD (valFormat (removeAll '"' (S "\"yes\"")))) ∧
    parseResponse (S "+OK \"list\":[ " ++ joinQuoted [S "Room_A", S "Room_B"] ++
        S " ]") =
      .ok (true, some .ok, .listD ([S "Room_A", S "Room_B"].map valFormat)) ∧
    parseResponse (S "+OK " ++ (S "publishToken" ++ ':' :: S "\"x\"")) =
      .ok (true, some .ok, .textD (S "publishToken" ++ ':' :: S "\"x\"")) :=
  ⟨parseResponse_ok_mapping.1 (S " \"\" ") (by decide),
   parseResponse_ok_mapping.2.1 (S "\"yes\"") (by decide) (by decide),
   parseResponse_ok_mapping.2.2.2.2.1 [S "Room_A", S "Room_B"] (by decide),
   parseResponse_ok_mapping.2.2.2.2.2 (S "publishToken") (S "\"x\"") (by decide)
     (by decide) (by decide) (by decide) (by decide)⟩

/-! Control-API claims. -/

theorem pyLower_bool (value : Bool) :
    pyLower (pyStr (.bool value)) = (if value then S "true" else S "false") := by
  cases value <;> decide

/-- C1: in the ready state `setMute` succeeds only if the block exists and
its type lies in the spec's set (the code accepts exactly the first five;
`SourceSelector` never passes the assertion, so the necessary condition
holds a fortiori), channel `0` expands to every existing channel and any
other channel must be an existing key; each target channel receives
exactly `"<blockID>" set mute <c> <true|false>` with the boolean
lowercased. -/
theorem setMute_only_if (st : TState) (blockID : PyStr) (channel : Int) (value : Bool)
    (h : (setMute st blockID channel value).err = false) :
    st.ready = true ∧
    ∃ b chs, lookupA st.blocks blockID = some b ∧ b.channels = some chs ∧
      b.type ∈ [S "LevelControl", S "MuteControl", S "DanteInput", S "DanteOutput",
        S "AudioOutput", S "SourceSelector"] ∧
      ((channel = 0 ∧ (setMute st blockID channel value).sent =
          (chs.map Prod.fst).map (fun c => S "\"" ++ blockID ++ S "\" set mute " ++
            keyChars c ++ S " " ++ (if value then S "true" else S "false"))) ∨
       (channel ≠ 0 ∧ PyKey.int channel ∈ chs.map Prod.fst ∧
        (setMute st blockID channel value).sent =
          [S "\"" ++ blockID ++ S "\" set mute " ++ keyChars (PyKey.int channel) ++
            S " " ++ (if value then S "true" else S "false")])) := by
  by_cases hrb : st.ready = true
  case neg =>
    exfalso
    have hsm : setMute st blockID channel value = ⟨[], true⟩ := by
      unfold setMute
      rw [if_pos (by simp [Bool.not_eq_true] at hrb; simp [hrb])]
    rw [hsm] at h
    exact absurd h (by decide)
  cases hl : lookupA st.blocks blockID with
  | none =>
    exfalso
    have hsm : setMute st blockID channel value = ⟨[], true⟩ := by
      simp only [setMute, hrb, hl, Bool.not_true, Bool.false_eq_true, if_false]
    rw [hsm] at h
    exact absurd h (by decide)
  | some b =>
    by_cases hty : b.type ∈ [S "LevelControl", S "MuteControl", S "DanteInput",
      S "DanteOutput", S "AudioOutput"]
    case neg =>
      exfalso
      have hsm : setMute st blockID channel value = ⟨[], true⟩ := by
        simp only [setMute, hrb, hl, Bool.not_true, Bool.false_eq_true, if_false]
        rw [if_neg hty]
      rw [hsm] at h
      exact absurd h (by decide)
    have hty6 : b.type ∈ [S "LevelControl", S "MuteControl", S "DanteInput",
        S "DanteOutput", S "AudioOutput", S "SourceSelector"] := by
      simp only [List.mem_cons, List.not_mem_nil, or_false] at hty ⊢
      tauto
    cases hch : b.channels with
    | none =>
      exfalso
      have hsm : setMute st blockID channel value = ⟨[], true⟩ := by
        simp only [setMute, hrb, hl, hch, Bool.not_true, Bool.false_eq_true, if_false]
        rw [if_pos hty]
      rw [hsm] at h
      exact absurd h (by decide)
    | some chs =>
      by_cases hc0 : channel = 0
      · have hsm : setMute st blockID channel value =
            ⟨(chs.map Prod.fst).map (fun c => muteCmdStr blockID c value), false⟩ := by
          simp only [setMute, hrb, hl, hch, Bool.not_true, Bool.false_eq_true, if_false]
          rw [if_pos hty, if_pos hc0]
        refine ⟨hrb, b, chs, rfl, hch, hty6, Or.inl ⟨hc0, ?_⟩⟩
        rw [hsm]
        apply List.map_congr_left
        intro c _
        simp [muteCmdStr, pyLower_bool]
      · by_cases hmem : PyKey.int channel ∈ chs.map Prod.fst
        · have hsm : setMute st blockID channel value =
              ⟨[muteCmdStr blockID (PyKey.int channel) value], false⟩ := by
            simp only [setMute, hrb, hl, hch, Bool.not_true, Bool.false_eq_true,
              if_false]
            rw [if_pos hty, if_neg hc0, if_pos hmem]
          refine ⟨hrb, b, chs, rfl, hch, hty6, Or.inr ⟨hc0, hmem, ?_⟩⟩
          rw [hsm]
          simp [muteCmdStr, pyLower_bool]
        · exfalso
          have hsm : setMute st blockID channel value = ⟨[], true⟩ := by
            simp only [setMute, hrb, hl, hch, Bool.not_true, Bool.false_eq_true,
              if_false]
            rw [if_pos hty, if_neg hc0, if_neg hmem]
          rw [hsm] at h
          exact absurd h (by decide)

/-- Closed instance of `setMute_only_if` at a concrete ready state. -/
theorem setMute_only_if_witness :
    demoSt.ready = true ∧
    ∃ b chs, lookupA demoSt.blocks (S "Gain1") = some b ∧ b.channels = some chs ∧
      b.type ∈ [S "LevelControl", S "MuteControl", S "DanteInput", S "DanteOutput",
        S "AudioOutput", S "SourceSelector"] ∧
      (((0 : Int) = 0 ∧ (setMute demoSt (S "Gain1") 0 true).sent =
          (chs.map Prod.fst).map (fun c => S "\"" ++ S "Gain1" ++ S "\" set mute " ++
            keyChars c ++ S " " ++ (if true then S "true" else S "false"))) ∨
       ((0 : Int) ≠ 0 ∧ PyKey.int 0 ∈ chs.map Prod.fst ∧
        (setMute demoSt (S "Gain1") 0 true).sent =
          [S "\"" ++ S "Gain1" ++ S "\" set mute " ++ keyChars (PyKey.int 0) ++
            S " " ++ (if true then S "true" else S "false")])) :=
  setMute_only_if demoSt (S "Gain1") 0 true (by decide)

theorem setLevelLoop_ok (blockID : PyStr) (chs : List (PyKey × Channel)) (value : Dec)
    (ks : List PyKey) :
    ∀ acc : List PyStr,
      (∀ c ∈ ks, ∃ ch lv mn mx, lookupA chs c = some ch ∧ ch.level = some lv ∧
        pyFloat lv.minimum = some mn ∧ pyFloat lv.maximum = some mx) →
      setLevelLoop blockID chs value ks acc =
        ⟨acc.reverse ++ ks.filterMap (levelDecision blockID chs value), false⟩ := by
  induction ks with
  | nil =>
    intro acc _
    simp [setLevelLoop]
  | cons c rest ih =>
    intro acc hk
    obtain ⟨ch, lv, mn, mx, h1, h2, h3, h4⟩ := hk c (List.mem_cons_self _ _)
    simp only [setLevelLoop, h1, h2, h3, h4]
    by_cases hcmp : decLE mn value ∧ decLE value mx
    · rw [if_pos hcmp, ih _ (fun d hd => hk d (List.mem_cons_of_mem _ hd))]
      simp only [List.filterMap_cons, levelDecision, h1, h2, h3, h4, if_pos hcmp]
      simp
    · rw [if_neg hcmp, ih _ (fun d hd => hk d (List.mem_cons_of_mem _ hd))]
      simp only [List.filterMap_cons, levelDecision, h1, h2, h3, h4, if_neg hcmp]

/-- C5: `setLevel` behaviour.  First part (necessity): a call that does
not raise had a ready state, an existing block of a level-capable type,
and channel `0` or an existing channel key.  Second part (behaviour):
under those conditions, with coercible stored bounds, channel `0` serves
every channel and a nonzero channel serves just itself, emitting
`"<blockID>" set level <c> <value>` exactly for the channels whose bounds
satisfy `min ≤ value ≤ max` — out-of-range channels get no command while
in-range channels of the same call are still served. -/
theorem setLevel_spec :
    (∀ (st : TState) (blockID : PyStr) (channel : Int) (value : Dec),
      (setLevel st blockID channel value).err = false →
      st.ready = true ∧ ∃ b chs, lookupA st.blocks blockID = some b ∧
        b.channels = some chs ∧
        b.type ∈ [S "LevelControl", S "DanteInput", S "DanteOutput", S "AudioOutput"] ∧
        (channel = 0 ∨ PyKey.int channel ∈ chs.map Prod.fst)) ∧
    (∀ (st : TState) (blockID : PyStr) (channel : Int) (value : Dec) (b : Block)
        (chs : List (PyKey × Channel)),
      st.ready = true → lookupA st.blocks blockID = some b → b.channels = some chs →
      b.type ∈ [S "LevelControl", S "DanteInput", S "DanteOutput", S "AudioOutput"] →
      (∀ c ∈ chs.map Prod.fst, ∃ ch lv mn mx, lookupA chs c = some ch ∧
        ch.level = some lv ∧ pyFloat lv.minimum = some mn ∧
        pyFloat lv.maximum = some mx) →
      ((channel = 0 → setLevel st blockID channel value =
          ⟨(chs.map Prod.fst).filterMap (levelDecision blockID chs value), false⟩) ∧
       (channel ≠ 0 → PyKey.int channel ∈ chs.map Prod.fst →
          setLevel st blockID channel value =
            ⟨[PyKey.int channel].filterMap (levelDecision blockID chs value), false⟩))) := by
  constructor
  · intro st blockID channel value h
    by_cases hrb : st.ready = true
    case neg =>
      exfalso
      have hsm : setLevel st blockID channel value = ⟨[], true⟩ := by
        unfold setLevel
        rw [if_pos (by simp [Bool.not_eq_true] at hrb; simp [hrb])]
      rw [hsm] at h
      exact absurd h (by decide)
    cases hl : lookupA st.blocks blockID with
    | none =>
      exfalso
      have hsm : setLevel st blockID channel value = ⟨[], true⟩ := by
        simp only [setLevel, hrb, hl, Bool.not_true, Bool.false_eq_true, if_false]
      rw [hsm] at h
      exact absurd h (by decide)
    | some b =>
      by_cases hty : b.type ∈ [S "LevelControl", S "DanteInput", S "DanteOutput",
        S "AudioOutput"]
      case neg =>
        exfalso
        have hsm : setLevel st blockID channel value = ⟨[], true⟩ := by
          simp only [setLevel, hrb, hl, Bool.not_true, Bool.false_eq_true, if_false]
          rw [if_neg hty]
        rw [hsm] at h
        exact absurd h (by decide)
      cases hch : b.channels with
      | none =>
        exfalso
        have hsm : setLevel st blockID channel value = ⟨[], true⟩ := by
          simp only [setLevel, hrb, hl, hch, Bool.not_true, Bool.false_eq_true,
            if_false]
          rw [if_pos hty]
        rw [hsm] at h
        exact absurd h (by decide)
      | some chs =>
        by_cases hc0 : channel = 0
        · exact ⟨hrb, b, chs, rfl, hch, hty, Or.inl hc0⟩
        · by_cases hmem : PyKey.int channel ∈ chs.map Prod.fst
          · exact ⟨hrb, b, chs, rfl, hch, hty, Or.inr hmem⟩
          · exfalso
            have hsm : setLevel st blockID channel value = ⟨[], true⟩ := by
              simp only [setLevel, hrb, hl, hch, Bool.not_true, Bool.false_eq_true,
                if_false]
              rw [if_pos hty, if_neg hc0, if_neg hmem]
            rw [hsm] at h
            exact absurd h (by decide)
  · intro st blockID channel value b chs hrb hl hch hty hco
    constructor
    · intro hc0
      have hsm : setLevel st blockID channel value =
          setLevelLoop blockID chs value (chs.map Prod.fst) [] := by
        simp only [setLevel, hrb, hl, hch, Bool.not_true, Bool.false_eq_true, if_false]
        rw [if_pos hty, if_pos hc0]
      rw [hsm, setLevelLoop_ok blockID chs value (chs.map Prod.fst) [] hco]
      simp
    · intro hc0 hmem
      have hsm : setLevel st blockID channel value =
          setLevelLoop blockID chs value [PyKey.int channel] [] := by
        simp only [setLevel, hrb, hl, hch, Bool.not_true, Bool.false_eq_true, if_false]
        rw [if_pos hty, if_neg hc0, if_pos hmem]
      rw [hsm, setLevelLoop_ok blockID chs value [PyKey.int channel] []
        (by intro c hc; rw [List.mem_singleton] at hc; exact hc ▸ hco _ hmem)]
      simp

theorem demoCoercible :
    ∀ c ∈ ([(PyKey.int 1, demoChan 1), (PyKey.int 2, demoChan 2)].map Prod.fst),
      ∃ ch lv mn mx,
        lookupA [(PyKey.int 1, demoChan 1), (PyKey.int 2, demoChan 2)] c = some ch ∧
          ch.level = some lv ∧ pyFloat lv.minimum = some mn ∧
          pyFloat lv.maximum = some mx := by
  intro c hc
  simp only [List.map_cons, List.map_nil, List.mem_cons, List.not_mem_nil, or_false]
    at hc
  rcases hc with rfl | rfl
  · exact ⟨demoChan 1, ⟨⟨-100, 0⟩, .num ⟨-100, 0⟩, .num ⟨12, 0⟩, false⟩, ⟨-100, 0⟩,
      ⟨12, 0⟩, by decide, by decide, by decide, by decide⟩
  · exact ⟨demoChan 2, ⟨⟨-100, 0⟩, .num ⟨-100, 0⟩, .num ⟨12, 0⟩, false⟩, ⟨-100, 0⟩,
      ⟨12, 0⟩, by decide, by decide, by decide, by decide⟩

/-- Closed instance of `setLevel_spec`: on the demo state a value of `20`
is above channel maximum `12`, so channel `0` serves both channels but
emits no command; a value of `5` emits for the selected channel. -/
theorem setLevel_spec_witness :
    setLevel demoSt (S "Gain1") 0 ⟨20, 0⟩ =
      ⟨([(PyKey.int 1, demoChan 1), (PyKey.int 2, demoChan 2)].map
          Prod.fst).filterMap
        (levelDecision (S "Gain1") [(PyKey.int 1, demoChan 1),
          (PyKey.int 2, demoChan 2)] ⟨20, 0⟩), false⟩ ∧
    setLevel demoSt (S "Gain1") 2 ⟨5, 0⟩ =
      ⟨[PyKey.int 2].filterMap
        (levelDecision (S "Gain1") [(PyKey.int 1, demoChan 1),
          (PyKey.int 2, demoChan 2)] ⟨5, 0⟩), false⟩ ∧
    (setLevel demoSt (S "Gain1") 0 ⟨20, 0⟩).sent = [] ∧
    (setLevel demoSt (S "Gain1") 2 ⟨5, 0⟩).sent =
      [S "\"Gain1\" set level 2 5.0"] :=
  ⟨(setLevel_spec.2 demoSt (S "Gain1") 0 ⟨20, 0⟩ demoBlock
      [(PyKey.int 1, demoChan 1), (PyKey.int 2, demoChan 2)] (by decide) (by decide)
      (by decide) (by decide) demoCoercible).1 rfl,
   (setLevel_spec.2 demoSt (S "Gain1") 2 ⟨5, 0⟩ demoBlock
      [(PyKey.int 1, demoChan 1), (PyKey.int 2, demoChan 2)] (by decide) (by decide)
      (by decide) (by decide) demoCoercible).2 (by decide) (by decide),
   by decide, by decide⟩

theorem lookupA_map_snd {κ α : Type} [DecidableEq κ] (m : List (κ × α)) (f : α → α)
    (k : κ) : lookupA (m.map (fun p => (p.1, f p.2))) k = (lookupA m k).map f := by
  induction m with
  | nil => rfl
  | cons p rest ih =>
    obtain ⟨k', v⟩ := p
    simp only [List.map_cons, lookupA]
    by_cases hk : k' = k
    · rw [if_pos hk, if_pos hk]
      rfl
    · rw [if_neg hk, if_neg hk, ih]

/-- C9: when the block model comes from the JSON cache file every channel
dict is keyed by decimal strings, so `setMute`/`setLevel` with any nonzero
integer channel fail with the invalid-channel assertion even though a
channel with that index exists, while channel `0` (the all-channels form)
still emits one command per (string-keyed) channel. -/
theorem cacheKeys_break_channel_access
    (m : Model) (blockID : PyStr) (b : Block) (chs : List (PyKey × Channel))
    (c : Int) (v : Bool) (value : Dec)
    (hl : lookupA m blockID = some b) (hch : b.channels = some chs)
    (hc : c ≠ 0) (hmem : PyKey.int c ∈ chs.map Prod.fst)
    (hmt : b.type ∈ [S "LevelControl", S "MuteControl", S "DanteInput",
      S "DanteOutput", S "AudioOutput"]) :
    (setMute ⟨true, cacheRoundTrip m⟩ blockID c v).err = true ∧
    (b.type ∈ [S "LevelControl", S "DanteInput", S "DanteOutput", S "AudioOutput"] →
      (setLevel ⟨true, cacheRoundTrip m⟩ blockID c value).err = true) ∧
    (setMute ⟨true, cacheRoundTrip m⟩ blockID 0 v).err = false ∧
    (setMute ⟨true, cacheRoundTrip m⟩ blockID 0 v).sent =
      (chs.map (fun q => jsonKey q.1)).map (fun k => muteCmdStr blockID k v) := by
  have hlc : lookupA (cacheRoundTrip m) blockID = some (cacheBlock b) := by
    unfold cacheRoundTrip
    rw [lookupA_map_snd m cacheBlock blockID, hl]
    rfl
  have hch' : (cacheBlock b).channels =
      some (chs.map (fun q => (jsonKey q.1, q.2))) := by
    simp [cacheBlock, hch]
  have htyp : (cacheBlock b).type = b.type := rfl
  have hnomem : PyKey.int c ∉ (chs.map (fun q => (jsonKey q.1, q.2))).map Prod.fst := by
    intro hm
    rw [List.map_map] at hm
    obtain ⟨q, _, hq⟩ := List.mem_map.mp hm
    cases hq' : q.1 with
    | int n => simp [Function.comp, hq', jsonKey] at hq
    | str s => simp [Function.comp, hq', jsonKey] at hq
  refine ⟨?_, ?_, ?_, ?_⟩
  · have hsm : setMute ⟨true, cacheRoundTrip m⟩ blockID c v = ⟨[], true⟩ := by
      simp only [setMute, hlc, hch', htyp, Bool.not_true, Bool.false_eq_true, if_false]
      rw [if_pos hmt, if_neg hc, if_neg hnomem]
    rw [hsm]
  · intro hlt
    have hsm : setLevel ⟨true, cacheRoundTrip m⟩ blockID c value = ⟨[], true⟩ := by
      simp only [setLevel, hlc, hch', htyp, Bool.not_true, Bool.false_eq_true, if_false]
      rw [if_pos hlt, if_neg hc, if_neg hnomem]
    rw [hsm]
  · have hsm : setMute ⟨true, cacheRoundTrip m⟩ blockID 0 v =
        ⟨((chs.map (fun q => (jsonKey q.1, q.2))).map Prod.fst).map
          (fun k => muteCmdStr blockID k v), false⟩ := by
      simp only [setMute, hlc, hch', htyp, Bool.not_true, Bool.false_eq_true, if_false]
      rw [if_pos hmt]
      simp
    rw [hsm]
  · have hsm : setMute ⟨true, cacheRoundTrip m⟩ blockID 0 v =
        ⟨((chs.map (fun q => (jsonKey q.1, q.2))).map Prod.fst).map
          (fun k => muteCmdStr blockID k v), false⟩ := by
      simp only [setMute, hlc, hch', htyp, Bool.not_true, Bool.false_eq_true, if_false]
      rw [if_pos hmt]
      simp
    rw [hsm]
    simp [List.map_map, Function.comp]

/-- Closed instance of `cacheKeys_break_channel_access` on the demo model:
channel `1` exists with an integer key, yet after the cache round trip
both mutators reject it, while channel `0` emits string-keyed commands. -/
theorem cacheKeys_break_channel_access_witness :
    (setMute ⟨true, cacheRoundTrip demoSt.blocks⟩ (S "Gain1") 1 true).err = true ∧
    (demoBlock.type ∈ [S "LevelControl", S "DanteInput", S "DanteOutput",
        S "AudioOutput"] →
      (setLevel ⟨true, cacheRoundTrip demoSt.blocks⟩ (S "Gain1") 1 ⟨5, 0⟩).err =
        true) ∧
    (setMute ⟨true, cacheRoundTrip demoSt.blocks⟩ (S "Gain1") 0 true).err = false ∧
    (setMute ⟨true, cacheRoundTrip demoSt.blocks⟩ (S "Gain1") 0 true).sent =
      ([(PyKey.int 1, demoChan 1), (PyKey.int 2, demoChan 2)].map
        (fun q => jsonKey q.1)).map (fun k => muteCmdStr (S "Gain1") k true) :=
  cacheKeys_break_channel_access demoSt.blocks (S "Gain1") demoBlock
    [(PyKey.int 1, demoChan 1), (PyKey.int 2, demoChan 2)] 1 true ⟨5, 0⟩
    (by decide) (by decide) (by decide) (by decide) (by decide)

theorem chanPres_refl (ch : Channel) : ChanPres ch ch := ⟨rfl, rfl, rfl⟩

theorem chanPres_trans {a b c : Channel} (h1 : ChanPres a b) (h2 : ChanPres b c) :
    ChanPres a c :=
  ⟨h2.1.trans h1.1, h2.2.1.trans h1.2.1, h2.2.2.trans h1.2.2⟩

theorem chansPres_refl (chs : List (PyKey × Channel)) : ChansPres chs chs := by
  induction chs with
  | nil => exact List.Forall₂.nil
  | cons p rest ih => exact List.Forall₂.cons ⟨rfl, chanPres_refl p.2⟩ ih

theorem chansPres_trans {a b c : List (PyKey × Channel)}
    (h1 : ChansPres a b) (h2 : ChansPres b c) : ChansPres a c := by
  induction h1 generalizing c with
  | nil => cases h2; exact List.Forall₂.nil
  | cons hpq hrest ih =>
    cases h2 with
    | cons hqc hrest2 =>
      exact List.Forall₂.cons ⟨hqc.1.trans hpq.1, chanPres_trans hpq.2 hqc.2⟩
        (ih hrest2)

theorem optRel_refl {α : Type} (R : α → α → Prop) (hr : ∀ a, R a a) (o : Option α) :
    OptRel R o o := by
  cases o with
  | none => trivial
  | some a => exact hr a

theorem optRel_trans {α : Type} {R : α → α → Prop}
    (hr : ∀ x y z : α, R x y → R y z → R x z) {a b c : Option α}
    (h1 : OptRel R a b) (h2 : OptRel R b c) : OptRel R a c := by
  cases a <;> cases b <;> cases c <;> simp [OptRel] at * <;> exact hr _ _ _ h1 h2

theorem blockPres_refl (b : Block) : BlockPres b b :=
  ⟨rfl, rfl, rfl, rfl, optRel_refl _ chansPres_refl _⟩

theorem blockPres_trans {a b c : Block} (h1 : BlockPres a b) (h2 : BlockPres b c) :
    BlockPres a c :=
  ⟨h2.1.trans h1.1, h2.2.1.trans h1.2.1, h2.2.2.1.trans h1.2.2.1,
   h2.2.2.2.1.trans h1.2.2.2.1,
   @optRel_trans _ ChansPres (fun _ _ _ hx hy => chansPres_trans hx hy) _ _ _
     h1.2.2.2.2 h2.2.2.2.2⟩

theorem modelPres_refl (target : PyStr) (m : Model) : ModelPres target m m := by
  induction m with
  | nil => exact List.Forall₂.nil
  | cons p rest ih =>
    exact List.Forall₂.cons ⟨rfl, fun _ => rfl, blockPres_refl p.2⟩ ih

theorem modelPres_trans {target : PyStr} {a b c : Model}
    (h1 : ModelPres target a b) (h2 : ModelPres target b c) :
    ModelPres target a c := by
  induction h1 generalizing c with
  | nil => cases h2; exact List.Forall₂.nil
  | cons hpq hrest ih =>
    cases h2 with
    | cons hqc hrest2 =>
      refine List.Forall₂.cons ⟨hqc.1.trans hpq.1, ?_, blockPres_trans hpq.2.2 hqc.2.2⟩
        (ih hrest2)
      intro hne
      rw [hqc.2.1 (by rw [hpq.1]; exact hne), hpq.2.1 hne]

theorem structPres_of_modelPres {target : PyStr} {a b : Model}
    (h : ModelPres target a b) : StructPres a b := by
  induction h with
  | nil => exact List.Forall₂.nil
  | cons hpq _ ih => exact List.Forall₂.cons ⟨hpq.1, hpq.2.2⟩ ih

theorem structPres_refl (m : Model) : StructPres m m :=
  structPres_of_modelPres (modelPres_refl [] m)

theorem structPres_trans {a b c : Model} (h1 : StructPres a b) (h2 : StructPres b c) :
    StructPres a c := by
  induction h1 generalizing c with
  | nil => cases h2; exact List.Forall₂.nil
  | cons hpq hrest ih =>
    cases h2 with
    | cons hqc hrest2 =>
      exact List.Forall₂.cons ⟨hqc.1.trans hpq.1, blockPres_trans hpq.2 hqc.2⟩
        (ih hrest2)

theorem modelPres_updateA_blocks (m : Model) (bid : PyStr) (f : Block → Block)
    (hf : ∀ b, BlockPres b (f b)) : ModelPres bid m (updateA m bid f) := by
  induction m with
  | nil => exact List.Forall₂.nil
  | cons p rest ih =>
    cases p with
    | mk k v =>
      simp only [updateA]
      by_cases hk : k = bid
      · rw [if_pos hk]
        exact List.Forall₂.cons ⟨rfl, fun hne => absurd hk hne, hf v⟩
          (modelPres_refl bid rest)
      · rw [if_neg hk]
        exact List.Forall₂.cons ⟨rfl, fun _ => rfl, blockPres_refl v⟩ ih

theorem chansPres_updateA (chs : List (PyKey × Channel)) (k0 : PyKey)
    (f : Channel → Channel) (hf : ∀ ch, ChanPres ch (f ch)) :
    ChansPres chs (updateA chs k0 f) := by
  induction chs with
  | nil => exact List.Forall₂.nil
  | cons p rest ih =>
    cases p with
    | mk k v =>
      simp only [updateA]
      by_cases hk : k = k0
      · rw [if_pos hk]
        exact List.Forall₂.cons ⟨rfl, hf v⟩ (chansPres_refl rest)
      · rw [if_neg hk]
        exact List.Forall₂.cons ⟨rfl, chanPres_refl v⟩ ih

theorem blockPres_chanMap (b : Block) (k : PyKey) (f : Channel → Channel)
    (hf : ∀ ch, ChanPres ch (f ch)) :
    BlockPres b { b with channels := b.channels.map (fun chs => updateA chs k f) } := by
  refine ⟨rfl, rfl, rfl, rfl, ?_⟩
  cases hc : b.channels with
  | none => trivial
  | some chs => exact chansPres_updateA chs k f hf

theorem modelPres_updateChan (m : Model) (bid : PyStr) (k : PyKey)
    (f : Channel → Channel) (hf : ∀ ch, ChanPres ch (f ch)) :
    ModelPres bid m (updateChan m bid k f) :=
  modelPres_updateA_blocks m bid _ (fun b => blockPres_chanMap b k f hf)

theorem modelPres_writeMutes (m : Model) (bid : PyStr) (pairs : List (PyKey × PyVal)) :
    ModelPres bid m (writeMutes m bid pairs) := by
  induction pairs generalizing m with
  | nil => exact modelPres_refl bid m
  | cons p rest ih =>
    simp only [writeMutes, List.foldl_cons] at ih ⊢
    exact modelPres_trans
      (modelPres_updateChan m bid p.1
        (fun ch => { ch with muted := some (pyBool p.2) })
        (fun ch => ⟨rfl, rfl, rfl⟩))
      (ih (updateChan m bid p.1 (fun ch => { ch with muted := some (pyBool p.2) })))

theorem writeLevel1_ok_pres (m : Model) (bid : PyStr) (k : PyKey) (v : PyVal)
    (m2 : Model) (h : writeLevel1 m bid k v = .ok m2) : ModelPres bid m m2 := by
  unfold writeLevel1 at h
  split at h
  · exact absurd h (by simp)
  · split at h
    · exact absurd h (by simp)
    · split at h
      · exact absurd h (by simp)
      · split at h
        · exact absurd h (by simp)
        · split at h
          · exact absurd h (by simp)
          · rw [← Except.ok.inj h]
            exact modelPres_updateChan m bid k _
              (fun c => ⟨rfl, rfl, by cases c.level <;> rfl⟩)

theorem writeLevel1_err_eq (m : Model) (bid : PyStr) (k : PyKey) (v : PyVal)
    (m2 : Model) (h : writeLevel1 m bid k v = .error m2) : m2 = m := by
  unfold writeLevel1 at h
  split at h
  · exact (Except.error.inj h).symm
  · split at h
    · exact (Except.error.inj h).symm
    · split at h
      · exact (Except.error.inj h).symm
      · split at h
        · exact (Except.error.inj h).symm
        · split at h
          · exact (Except.error.inj h).symm
          · exact absurd h (by simp)

theorem modelPres_writeLevels (m : Model) (bid : PyStr) (pairs : List (PyKey × PyVal)) :
    ModelPres bid m (exVal (writeLevels m bid pairs)) := by
  induction pairs generalizing m with
  | nil => exact modelPres_refl bid m
  | cons p rest ih =>
    simp only [writeLevels]
    cases hw : writeLevel1 m bid p.1 p.2 with
    | error m2 =>
      rw [writeLevel1_err_eq m bid p.1 p.2 m2 hw]
      exact modelPres_refl bid m
    | ok m2 =>
      exact modelPres_trans (writeLevel1_ok_pres m bid p.1 p.2 m2 hw) (ih m2)

theorem applySub_pres (m : Model) (msg : SubMsg) :
    ModelPres msg.dspBlock m (exVal (applySub m msg)) := by
  unfold applySub
  repeat' split
  all_goals
    first
    | exact modelPres_refl _ m
    | exact modelPres_writeMutes m _ _
    | exact modelPres_writeLevels m _ _
    | exact modelPres_updateA_blocks m _ _
        (fun bb => ⟨rfl, rfl, rfl, by cases bb.usb <;> rfl, optRel_refl _ chansPres_refl _⟩)

theorem dispatchSub_pres (m : Model) (msg : SubMsg) :
    ModelPres msg.dspBlock m (dispatchSub m msg) := by
  have h := applySub_pres m msg
  unfold dispatchSub
  cases happ : applySub m msg with
  | ok m2 => rw [happ] at h; exact h
  | error m2 => rw [happ] at h; exact h

/-- C7: for every ingress buffer the subscription router handles, the
resulting model preserves every block of the old model in place (same
keys, same order), writes at most the frame's own block — every other
block is untouched — and inside it changes nothing beyond the writable
fields: on the target it keeps `type`, `supported`, `ganged`, the
presence of the usb record, the channel key set with order, and each
channel's `idx`, `label` and level `minimum`/`maximum` (levels record
presence included), so only `level.current` (with its observed mark),
`muted` and the `usb` flag values can differ. -/
theorem router_frame_effect (m : Model) (buf : PyStr) :
    ∃ target : PyStr, ModelPres target m (processReceivedData m buf) := by
  unfold processReceivedData
  cases hp : parseResponse buf with
  | error e => exact ⟨[], modelPres_refl [] m⟩
  | ok trip =>
    obtain ⟨pOK, mt, md⟩ := trip
    cases pOK with
    | false => exact ⟨[], modelPres_refl [] m⟩
    | true =>
      cases mt with
      | none => exact ⟨[], modelPres_refl [] m⟩
      | some rt =>
        cases rt with
        | ok => exact ⟨[], modelPres_refl [] m⟩
        | error => exact ⟨[], modelPres_refl [] m⟩
        | subscription =>
          cases md with
          | noneD => exact ⟨[], modelPres_refl [] m⟩
          | textD t => exact ⟨[], modelPres_refl [] m⟩
          | valD v => exact ⟨[], modelPres_refl [] m⟩
          | listD l => exact ⟨[], modelPres_refl [] m⟩
          | subD msg => exact ⟨msg.dspBlock, dispatchSub_pres m msg⟩

/-- C8: a subscription frame whose dispatch fails leaves the model
completely unchanged. Three failure routes of the source: a subscription
line whose body does not decode (in particular an unknown TID, rejected
by the tag-table lookup, so `parseSubBody` raises) drops the frame
before any write; a decoded frame naming a block absent from the model
raises on the lookup and the handler keeps the old model; a list frame
whose length differs from the block's channel count is rejected before
any write. -/
theorem dispatch_failures_drop_frame :
    (∀ (m : Model) (buf line : PyStr),
      findProtoLine (splitlines buf) = some (.subscription, line) →
      parseSubBody line = .error () → processReceivedData m buf = m) ∧
    (∀ (m : Model) (msg : SubMsg), lookupA m msg.dspBlock = none →
      dispatchSub m msg = m) ∧
    (∀ (m : Model) (msg : SubMsg) (b : Block) (chs : List (PyKey × Channel))
      (vs : List PyVal), lookupA m msg.dspBlock = some b →
      b.channels = some chs → msg.value = .list vs →
      vs.length ≠ chs.length → dispatchSub m msg = m) := by
  refine ⟨?_, ?_, ?_⟩
  · intro m buf line hf hsub
    by_cases hs : pyStrip buf = []
    · simp [processReceivedData, parseResponse, hs]
    · simp [processReceivedData, parseResponse, hs, hf, hsub, Except.map]
  · intro m msg h
    simp [dispatchSub, applySub, h]
  · intro m msg b chs vs hb hc hv hlen
    by_cases ht : b.type ∈ [S "LevelControl", S "MuteControl", S "DanteInput",
        S "DanteOutput", S "UsbInput", S "UsbOutput", S "AudioOutput"]
    · simp [dispatchSub, applySub, hb, hc, hv, ht, hlen]
    · simp [dispatchSub, applySub, hb, hc, hv, ht]

/-- Closed instance of `dispatch_failures_drop_frame`: an unknown TID in
the ingress line, an unknown block in a decoded frame, and a one-value
frame against a two-channel block all leave the demo model untouched. -/
theorem dispatch_failures_drop_frame_witness :
    processReceivedData demoSt.blocks
        (S "! \"publishToken\":\"S_XXXX_Gain1\" \"value\":1") = demoSt.blocks ∧
    dispatchSub demoSt.blocks ⟨S "Nope", S "levels", .scalar (.bool true)⟩ =
      demoSt.blocks ∧
    dispatchSub demoSt.blocks ⟨S "Gain1", S "levels", .list [.num ⟨1, 0⟩]⟩ =
      demoSt.blocks :=
  ⟨dispatch_failures_drop_frame.1 demoSt.blocks
      (S "! \"publishToken\":\"S_XXXX_Gain1\" \"value\":1")
      (pyStrip ((S "! \"publishToken\":\"S_XXXX_Gain1\" \"value\":1").drop 1))
      (by decide) (by decide),
   dispatch_failures_drop_frame.2.1 demoSt.blocks
      ⟨S "Nope", S "levels", .scalar (.bool true)⟩ (by decide),
   dispatch_failures_drop_frame.2.2 demoSt.blocks
      ⟨S "Gain1", S "levels", .list [.num ⟨1, 0⟩]⟩ demoBlock
      [(PyKey.int 1, demoChan 1), (PyKey.int 2, demoChan 2)]
      [.num ⟨1, 0⟩] (by decide) (by decide) rfl (by decide)⟩

theorem lookupA_updateA {κ α : Type} [DecidableEq κ] (m : List (κ × α)) (key key2 : κ)
    (f : α → α) : lookupA (updateA m key f) key2 =
      if key2 = key then (lookupA m key).map f else lookupA m key2 := by
  induction m with
  | nil => simp [updateA, lookupA]
  | cons p rest ih =>
    cases p with
    | mk k v =>
      by_cases hk : k = key
      · subst hk
        by_cases h2 : k = key2
        · subst h2; simp [updateA, lookupA]
        · simp [updateA, lookupA, h2, Ne.symm h2]
      · by_cases h2 : k = key2
        · subst h2
          simp [updateA, lookupA, hk, Ne.symm hk]
        · simp [updateA, lookupA, hk, h2, ih]

theorem updateA_map_fst {κ α : Type} [DecidableEq κ] (m : List (κ × α)) (key : κ)
    (f : α → α) : (updateA m key f).map Prod.fst = m.map Prod.fst := by
  induction m with
  | nil => rfl
  | cons p rest ih =>
    cases p with
    | mk k v =>
      by_cases hk : k = key
      · simp [updateA, hk]
      · simp [updateA, hk, ih]

theorem lookupA_mem {κ α : Type} [DecidableEq κ] (m : List (κ × α)) (k : κ) (v : α)
    (h : lookupA m k = some v) : (k, v) ∈ m := by
  induction m with
  | nil => simp [lookupA] at h
  | cons p rest ih =>
    cases p with
    | mk k2 v2 =>
      by_cases hk : k2 = k
      · subst hk
        simp [lookupA] at h
        rw [h]
        exact List.mem_cons_self _ _
      · simp [lookupA, hk] at h
        exact List.mem_cons_of_mem _ (ih h)

theorem mem_dictUpsert {κ α : Type} [DecidableEq κ] (m : List (κ × α)) (key : κ)
    (v : α) (p : κ × α) (h : p ∈ dictUpsert m key v) : p ∈ m ∨ p.2 = v := by
  unfold dictUpsert at h
  split at h
  · obtain ⟨q, hq, he⟩ := List.mem_map.mp h
    by_cases hk : q.1 = key
    · rw [if_pos hk] at he
      right
      rw [← he]
    · rw [if_neg hk] at he
      left
      rw [← he]
      exact hq
  · rcases List.mem_append.mp h with h1 | h1
    · exact Or.inl h1
    · right
      simp at h1
      rw [h1]

theorem probeType_fields (o : Oracle) (a : PyStr) (b : Block)
    (h : probeType o a = some b) : b.supported = false ∧ b.channels = none := by
  simp only [probeType] at h
  split at h
  · rw [← Option.some.inj h]
    exact ⟨rfl, rfl⟩
  · exact absurd h (by simp)

theorem lookupA_map_key {κ α β : Type} [DecidableEq κ] (l : List (κ × α))
    (g : κ → α → β) (k : κ) :
    lookupA (l.map (fun p => (p.1, g p.1 p.2))) k = (lookupA l k).map (g k) := by
  induction l with
  | nil => rfl
  | cons p rest ih =>
    cases p with
    | mk k2 v =>
      by_cases hk : k2 = k
      · subst hk; simp [lookupA]
      · simp [lookupA, hk, ih]

theorem structPres_lookup : ∀ {m m2 : Model}, StructPres m m2 → ∀ (bid : PyStr)
    (b2 : Block), lookupA m2 bid = some b2 →
    ∃ b, lookupA m bid = some b ∧ BlockPres b b2 := by
  intro m
  induction m with
  | nil =>
    intro m2 hs bid b2 h
    cases hs
    simp [lookupA] at h
  | cons p rest ih =>
    intro m2 hs bid b2 h
    obtain ⟨pk, pv⟩ := p
    cases hs with
    | cons hpq hrest =>
      rename_i q l2
      obtain ⟨qk, qv⟩ := q
      obtain ⟨hkeq, hbp⟩ := hpq
      by_cases hk : qk = bid
      · simp only [lookupA] at h
        rw [if_pos hk] at h
        refine ⟨pv, ?_, ?_⟩
        · simp only [lookupA]
          rw [if_pos (hkeq.symm.trans hk)]
        · rw [← Option.some.inj h]
          exact hbp
      · simp only [lookupA] at h
        rw [if_neg hk] at h
        obtain ⟨b, hb, hbp2⟩ := ih hrest bid b2 h
        refine ⟨b, ?_, hbp2⟩
        simp only [lookupA]
        rw [if_neg (fun hc : pk = bid => hk (hkeq.trans hc))]
        exact hb

theorem chansPres_lookup : ∀ {chs chs2 : List (PyKey × Channel)},
    ChansPres chs chs2 → ∀ (k : PyKey) (ch2 : Channel), lookupA chs2 k = some ch2 →
    ∃ ch, lookupA chs k = some ch ∧ ChanPres ch ch2 := by
  intro chs
  induction chs with
  | nil =>
    intro chs2 hs k ch2 h
    cases hs
    simp [lookupA] at h
  | cons p rest ih =>
    intro chs2 hs k ch2 h
    obtain ⟨pk, pv⟩ := p
    cases hs with
    | cons hpq hrest =>
      rename_i q l2
      obtain ⟨qk, qv⟩ := q
      obtain ⟨hkeq, hcp⟩ := hpq
      by_cases hk : qk = k
      · simp only [lookupA] at h
        rw [if_pos hk] at h
        refine ⟨pv, ?_, ?_⟩
        · simp only [lookupA]
          rw [if_pos (hkeq.symm.trans hk)]
        · rw [← Option.some.inj h]
          exact hcp
      · simp only [lookupA] at h
        rw [if_neg hk] at h
        obtain ⟨ch, hch, hcp2⟩ := ih hrest k ch2 h
        refine ⟨ch, ?_, hcp2⟩
        simp only [lookupA]
        rw [if_neg (fun hc : pk = k => hk (hkeq.trans hc))]
        exact hch

theorem chansPres_keys : ∀ {chs chs2 : List (PyKey × Channel)},
    ChansPres chs chs2 → chs2.map Prod.fst = chs.map Prod.fst := by
  intro chs
  induction chs with
  | nil => intro chs2 h; cases h; rfl
  | cons p rest ih =>
    intro chs2 h
    cases h with
    | cons hpq hrest =>
      simp only [List.map_cons]
      rw [hpq.1, ih hrest]

theorem blockPres_channels {b b2 : Block} (h : BlockPres b b2)
    {chs2 : List (PyKey × Channel)} (h2 : b2.channels = some chs2) :
    ∃ chs, b.channels = some chs ∧ ChansPres chs chs2 := by
  have hopt := h.2.2.2.2
  cases hb : b.channels with
  | none =>
    rw [hb, h2] at hopt
    simp [OptRel] at hopt
  | some chs =>
    rw [hb, h2] at hopt
    exact ⟨chs, rfl, hopt⟩

theorem chanPres_level {ch ch2 : Channel} (h : ChanPres ch ch2)
    {lv2 : Level} (h2 : ch2.level = some lv2) :
    ∃ lv, ch.level = some lv ∧ lv.minimum = lv2.minimum ∧
      lv.maximum = lv2.maximum := by
  have hm := h.2.2
  rw [h2] at hm
  cases hl : ch.level with
  | none => rw [hl] at hm; simp at hm
  | some lv =>
    rw [hl] at hm
    have hp : (lv2.minimum, lv2.maximum) = (lv.minimum, lv.maximum) :=
      Option.some.inj hm
    exact ⟨lv, rfl, congrArg Prod.fst hp.symm, congrArg Prod.snd hp.symm⟩

theorem pairsOK_transfer {m m2 : Model} (bid : PyStr) (pairs : List (PyKey × PyVal))
    (hs : StructPres m m2) (hp : PairsOK m bid pairs) : PairsOK m2 bid pairs := by
  intro k v hmem b2 hb2 chs2 hc2 ch2 hch2 lv2 hlv2 d hd
  obtain ⟨b, hb, hbp⟩ := structPres_lookup hs bid b2 hb2
  obtain ⟨chs, hc, hcp⟩ := blockPres_channels hbp hc2
  obtain ⟨ch, hch, hchp⟩ := chansPres_lookup hcp k ch2 hch2
  obtain ⟨lv, hlv, hmin, hmax⟩ := chanPres_level hchp hlv2
  obtain ⟨mn, mx, h1, h2, h3, h4⟩ := hp k v hmem b hb chs hc ch hch lv hlv d hd
  exact ⟨mn, mx, hmin.symm.trans h1, hmax.symm.trans h2, h3, h4⟩

theorem frameOK_transfer {m m2 : Model} (msg : SubMsg) (hs : StructPres m m2)
    (h : FrameOK m msg) : FrameOK m2 msg := by
  intro vs hv hkind b2 hb2 chs2 hc2
  obtain ⟨b, hb, hbp⟩ := structPres_lookup hs msg.dspBlock b2 hb2
  obtain ⟨chs, hc, hcp⟩ := blockPres_channels hbp hc2
  rw [chansPres_keys hcp]
  exact pairsOK_transfer msg.dspBlock _ hs (h vs hv hkind b hb chs hc)

theorem updateA_length {κ α : Type} [DecidableEq κ] (m : List (κ × α)) (key : κ)
    (f : α → α) : (updateA m key f).length = m.length := by
  have h := congrArg List.length (updateA_map_fst m key f)
  simpa using h

theorem chanIdxOK_updateA (chs : List (PyKey × Channel)) (k : PyKey)
    (f : Channel → Channel) (h : chanIdxOK chs) : chanIdxOK (updateA chs k f) := by
  unfold chanIdxOK at h ⊢
  rw [updateA_map_fst, updateA_length]
  exact h

theorem modelInv_updateChan_of (m : Model) (bid : PyStr) (k : PyKey)
    (f : Channel → Channel) (hmi : ModelInv m)
    (hf : ∀ b chs ch, lookupA m bid = some b → b.channels = some chs →
      lookupA chs k = some ch →
      (∀ lv, ch.level = some lv → levelInv lv) →
      ∀ lv2, (f ch).level = some lv2 → levelInv lv2) :
    ModelInv (updateChan m bid k f) := by
  intro bid2 b2 hb2
  rw [updateChan, lookupA_updateA] at hb2
  by_cases hbid : bid2 = bid
  · rw [if_pos hbid] at hb2
    cases hL : lookupA m bid with
    | none => rw [hL] at hb2; simp at hb2
    | some b0 =>
      rw [hL] at hb2
      have hb2e : b2 = { b0 with channels := b0.channels.map (fun chs => updateA chs k f) } :=
        (Option.some.inj hb2).symm
      subst hb2e
      have hmi0 := hmi bid b0 hL
      constructor
      · intro hsupp
        obtain ⟨chs, hchs, hne⟩ := hmi0.1 hsupp
        refine ⟨updateA chs k f, ?_, ?_⟩
        · show b0.channels.map (fun chs => updateA chs k f) = some (updateA chs k f)
          rw [hchs]
          rfl
        · intro hnil
          have hlen := congrArg List.length hnil
          rw [updateA_length] at hlen
          exact hne (List.length_eq_zero.mp hlen)
      · intro chs2 hchs2
        have h4 : b0.channels.map (fun chs => updateA chs k f) = some chs2 := hchs2
        cases hc0 : b0.channels with
        | none => rw [hc0] at h4; simp at h4
        | some chs0 =>
          rw [hc0] at h4
          have h3 : updateA chs0 k f = chs2 := Option.some.inj h4
          subst h3
          have hmain := hmi0.2 chs0 hc0
          constructor
          · exact chanIdxOK_updateA chs0 k f hmain.1
          · intro k2 ch2 hch2 lv2 hlv2
            rw [lookupA_updateA] at hch2
            by_cases hk2 : k2 = k
            · rw [if_pos hk2] at hch2
              cases hCh : lookupA chs0 k with
              | none => rw [hCh] at hch2; simp at hch2
              | some ch0 =>
                rw [hCh] at hch2
                have hch2e : ch2 = f ch0 := (Option.some.inj hch2).symm
                subst hch2e
                exact hf b0 chs0 ch0 hL hc0 hCh
                  (fun lv hlv => hmain.2 k ch0 hCh lv hlv) lv2 hlv2
            · rw [if_neg hk2] at hch2
              exact hmain.2 k2 ch2 hch2 lv2 hlv2
  · rw [if_neg hbid] at hb2
    exact hmi bid2 b2 hb2

theorem modelInv_updateChan_keepLevel (m : Model) (bid : PyStr) (k : PyKey)
    (f : Channel → Channel) (hf : ∀ ch, (f ch).level = ch.level)
    (hmi : ModelInv m) : ModelInv (updateChan m bid k f) :=
  modelInv_updateChan_of m bid k f hmi
    (fun _ _ ch _ _ _ hlv lv2 hlv2 => hlv lv2 (hf ch ▸ hlv2))

theorem modelInv_writeMutes (bid : PyStr) (pairs : List (PyKey × PyVal)) :
    ∀ m : Model, ModelInv m → ModelInv (writeMutes m bid pairs) := by
  induction pairs with
  | nil => intro m hmi; exact hmi
  | cons p rest ih =>
    intro m hmi
    exact ih _ (modelInv_updateChan_keepLevel m bid p.1 _ (fun ch => rfl) hmi)

theorem modelInv_updateA_keepChans (m : Model) (bid : PyStr) (f : Block → Block)
    (hf : ∀ b, (f b).supported = b.supported ∧ (f b).channels = b.channels)
    (hmi : ModelInv m) : ModelInv (updateA m bid f) := by
  intro bid2 b2 hb2
  rw [lookupA_updateA] at hb2
  by_cases hbid : bid2 = bid
  · rw [if_pos hbid] at hb2
    cases hL : lookupA m bid with
    | none => rw [hL] at hb2; simp at hb2
    | some b0 =>
      rw [hL] at hb2
      have hb2e : b2 = f b0 := (Option.some.inj hb2).symm
      subst hb2e
      have hmi0 := hmi bid b0 hL
      refine ⟨?_, ?_⟩
      · rw [(hf b0).1, (hf b0).2]
        exact hmi0.1
      · rw [(hf b0).2]
        exact hmi0.2
  · rw [if_neg hbid] at hb2
    exact hmi bid2 b2 hb2

theorem writeLevel1_ok_inv (m : Model) (bid : PyStr) (k : PyKey) (v : PyVal)
    (m2 : Model) (h : writeLevel1 m bid k v = .ok m2) :
    ∃ q b chs ch lv, pyFloat v = some q ∧ lookupA m bid = some b ∧
      b.channels = some chs ∧ lookupA chs k = some ch ∧ ch.level = some lv ∧
      m2 = updateChan m bid k (fun c => { c with level := c.level.map (fun l =>
        { l with current := q, observed := true }) }) := by
  unfold writeLevel1 at h
  split at h
  · exact absurd h (by simp)
  · rename_i q hq
    split at h
    · exact absurd h (by simp)
    · rename_i b hb
      split at h
      · exact absurd h (by simp)
      · rename_i chs hc
        split at h
        · exact absurd h (by simp)
        · rename_i ch hch
          split at h
          · exact absurd h (by simp)
          · rename_i lv hlv
            exact ⟨q, b, chs, ch, lv, hq, hb, hc, hch, hlv, (Except.ok.inj h).symm⟩

theorem modelInv_writeCur (m : Model) (bid : PyStr) (k : PyKey) (q : Dec)
    (hmi : ModelInv m)
    (hbnd : ∀ b, lookupA m bid = some b → ∀ chs, b.channels = some chs →
      ∀ ch, lookupA chs k = some ch → ∀ lv, ch.level = some lv →
        ∃ mn mx : Dec, lv.minimum = .num mn ∧ lv.maximum = .num mx ∧
          decLE mn q ∧ decLE q mx) :
    ModelInv (updateChan m bid k (fun c => { c with level := c.level.map (fun l =>
      { l with current := q, observed := true }) })) := by
  apply modelInv_updateChan_of m bid k _ hmi
  intro b chs ch hb hc hch hlvOK lv2 hlv2
  have hlv2a : ch.level.map (fun l => { l with current := q, observed := true }) =
      some lv2 := hlv2
  cases hl : ch.level with
  | none => rw [hl] at hlv2a; simp at hlv2a
  | some lv0 =>
    rw [hl] at hlv2a
    have hlv2e : { lv0 with current := q, observed := true } = lv2 :=
      Option.some.inj hlv2a
    subst hlv2e
    obtain ⟨mn, mx, hmn, hmx, hq1, hq2⟩ := hbnd b hb chs hc ch hch lv0 hl
    obtain ⟨mn0, mx0, hmn0, hmx0, hlemm, _⟩ := hlvOK lv0 hl
    have hmneq : mn = mn0 := PyVal.num.inj (hmn.symm.trans hmn0)
    have hmxeq : mx = mx0 := PyVal.num.inj (hmx.symm.trans hmx0)
    refine ⟨mn, mx, hmn, hmx, ?_, ?_⟩
    · rw [hmneq, hmxeq]
      exact hlemm
    · intro _
      exact ⟨hq1, hq2⟩

theorem modelInv_writeLevels (bid : PyStr) : ∀ (pairs : List (PyKey × PyVal))
    (m : Model), ModelInv m → PairsOK m bid pairs →
    ModelInv (exVal (writeLevels m bid pairs)) := by
  intro pairs
  induction pairs with
  | nil => intro m hmi _; exact hmi
  | cons p rest ih =>
    intro m hmi hpk
    simp only [writeLevels]
    cases hw : writeLevel1 m bid p.1 p.2 with
    | error m2 =>
      rw [writeLevel1_err_eq m bid p.1 p.2 m2 hw]
      exact hmi
    | ok m2 =>
      obtain ⟨q, b, chs, ch, lv, hq, hb, hc, hch, hlv, hm2⟩ :=
        writeLevel1_ok_inv m bid p.1 p.2 m2 hw
      have hmi2 : ModelInv m2 := by
        rw [hm2]
        apply modelInv_writeCur m bid p.1 q hmi
        intro b2 hb2 chs2 hc2 ch2 hch2 lv2 hlv2
        exact hpk p.1 p.2 (List.mem_cons_self _ _) b2 hb2 chs2 hc2 ch2 hch2 lv2 hlv2 q hq
      have hpres : StructPres m m2 := by
        rw [hm2]
        exact structPres_of_modelPres (modelPres_updateChan m bid p.1 _
          (fun c => ⟨rfl, rfl, by cases c.level <;> rfl⟩))
      have hpk2 : PairsOK m2 bid rest :=
        pairsOK_transfer bid rest hpres
          (fun k v hm => hpk k v (List.mem_cons_of_mem _ hm))
      exact ih m2 hmi2 hpk2

theorem modelInv_applySub (m : Model) (msg : SubMsg) (hmi : ModelInv m)
    (hfr : FrameOK m msg) : ModelInv (exVal (applySub m msg)) := by
  cases hb : lookupA m msg.dspBlock with
  | none =>
    simp only [applySub, hb]
    exact hmi
  | some b =>
    by_cases ht : b.type ∈ [S "LevelControl", S "MuteControl", S "DanteInput",
        S "DanteOutput", S "UsbInput", S "UsbOutput", S "AudioOutput"]
    · cases hc : b.channels with
      | none => simpa [applySub, hb, ht, hc] using hmi
      | some chs =>
        cases hv : msg.value with
        | list vs =>
          by_cases hlen : vs.length ≠ chs.length
          · simpa [applySub, hb, ht, hc, hv, hlen] using hmi
          · by_cases hmt : msg.kind = S "mutes"
            · by_cases hu : b.type ∈ [S "UsbInput", S "UsbOutput"]
              · simpa [applySub, hb, ht, hc, hv, hlen, hmt, hu] using hmi
              · simpa [applySub, hb, ht, hc, hv, hlen, hmt, hu] using
                  modelInv_writeMutes msg.dspBlock ((chs.map Prod.fst).zip vs) m hmi
            · by_cases hmc : b.type = S "MuteControl"
              · simpa [applySub, hb, ht, hc, hv, hlen, hmt, hmc] using hmi
              · have hpk : PairsOK m msg.dspBlock ((chs.map Prod.fst).zip vs) :=
                  hfr vs hv hmt b hb chs hc
                simpa [applySub, hb, ht, hc, hv, hlen, hmt, hmc] using
                  modelInv_writeLevels msg.dspBlock ((chs.map Prod.fst).zip vs) m hmi hpk
        | scalar v =>
          cases v with
          | num d => simpa [applySub, hb, ht, hc, hv] using hmi
          | bool bb =>
            by_cases hu : b.type ∈ [S "UsbInput", S "UsbOutput"]
            · cases husb : b.usb with
              | none => simpa [applySub, hb, ht, hc, hv, hu, husb] using hmi
              | some u =>
                by_cases hstr : msg.kind = S "streaming"
                · simpa [applySub, hb, ht, hc, hv, hu, husb, hstr] using
                    modelInv_updateA_keepChans m msg.dspBlock
                      (fun b3 => { b3 with usb := b3.usb.map (fun u2 => (pyBool (PyVal.bool bb), u2.2)) })
                      (fun b3 => ⟨rfl, rfl⟩) hmi
                · by_cases hcon : msg.kind = S "connected"
                  · have hlit : S "connected" ≠ S "streaming" := by decide
                    simpa [applySub, hb, ht, hc, hv, hu, husb, hcon, hlit] using
                      modelInv_updateA_keepChans m msg.dspBlock
                        (fun b3 => { b3 with usb := b3.usb.map (fun u2 => (u2.1, pyBool (PyVal.bool bb))) })
                        (fun b3 => ⟨rfl, rfl⟩) hmi
                  · simpa [applySub, hb, ht, hc, hv, hu, husb, hstr, hcon] using hmi
            · simpa [applySub, hb, ht, hc, hv, hu] using hmi
          | text t =>
            by_cases hu : b.type ∈ [S "UsbInput", S "UsbOutput"]
            · cases husb : b.usb with
              | none => simpa [applySub, hb, ht, hc, hv, hu, husb] using hmi
              | some u =>
                by_cases hstr : msg.kind = S "streaming"
                · simpa [applySub, hb, ht, hc, hv, hu, husb, hstr] using
                    modelInv_updateA_keepChans m msg.dspBlock
                      (fun b3 => { b3 with usb := b3.usb.map (fun u2 => (pyBool (PyVal.text t), u2.2)) })
                      (fun b3 => ⟨rfl, rfl⟩) hmi
                · by_cases hcon : msg.kind = S "connected"
                  · have hlit : S "connected" ≠ S "streaming" := by decide
                    simpa [applySub, hb, ht, hc, hv, hu, husb, hcon, hlit] using
                      modelInv_updateA_keepChans m msg.dspBlock
                        (fun b3 => { b3 with usb := b3.usb.map (fun u2 => (u2.1, pyBool (PyVal.text t))) })
                        (fun b3 => ⟨rfl, rfl⟩) hmi
                  · simpa [applySub, hb, ht, hc, hv, hu, husb, hstr, hcon] using hmi
            · simpa [applySub, hb, ht, hc, hv, hu] using hmi
    · simpa [applySub, hb, ht] using hmi

theorem modelInv_dispatchSub (m : Model) (msg : SubMsg) (hmi : ModelInv m)
    (hfr : FrameOK m msg) : ModelInv (dispatchSub m msg) := by
  have h := modelInv_applySub m msg hmi hfr
  unfold dispatchSub
  cases happ : applySub m msg with
  | ok m2 => rw [happ] at h; exact h
  | error m2 => rw [happ] at h; exact h

theorem phase1_values (o : Oracle) (aliases : List PyStr) :
    ∀ p ∈ (aliases.foldl (fun acc a =>
        match probeType o a with
        | some b => dictUpsert acc a b
        | none => acc) ([] : Model)),
      p.2.supported = false ∧ p.2.channels = none := by
  suffices h : ∀ (l : List PyStr) (acc : Model),
      (∀ p ∈ acc, p.2.supported = false ∧ p.2.channels = none) →
      ∀ p ∈ l.foldl (fun acc a => match probeType o a with
        | some b => dictUpsert acc a b | none => acc) acc,
      p.2.supported = false ∧ p.2.channels = none by
    refine h aliases [] ?_
    intro p hp
    simp at hp
  intro l
  induction l with
  | nil => intro acc hacc p hp; exact hacc p hp
  | cons a rest ih =>
    intro acc hacc p hp
    simp only [List.foldl_cons] at hp
    cases hpt : probeType o a with
    | none =>
      rw [hpt] at hp
      exact ih acc hacc p hp
    | some b =>
      rw [hpt] at hp
      refine ih (dictUpsert acc a b) ?_ p hp
      intro q hq
      rcases mem_dictUpsert acc a b q hq with h1 | h1
      · exact hacc q h1
      · rw [h1]
        exact probeType_fields o a b hpt

theorem modelInv_discover (o : Oracle) (aliases : List PyStr) (ho : OracleOK o) :
    ModelInv (discoverDSPBlocks o aliases) := by
  intro bid b hb
  simp only [discoverDSPBlocks] at hb
  rw [lookupA_map_key _ (discoverBlock o) bid] at hb
  obtain ⟨b0, hb0, hbe⟩ := Option.map_eq_some'.mp hb
  have hP := phase1_values o aliases _ (lookupA_mem _ _ _ hb0)
  subst hbe
  unfold discoverBlock
  by_cases ht : b0.type ∈ [S "LevelControl", S "MuteControl", S "DanteInput",
      S "DanteOutput", S "UsbInput", S "UsbOutput", S "AudioOutput"]
  · rw [if_pos ht]
    constructor
    · intro _
      refine ⟨_, rfl, ?_⟩
      intro hnil
      have hlen := congrArg List.length hnil
      simp [List.length_range'] at hlen
      have h1 := (ho bid).1
      omega
    · intro chs hchs
      have hchse : ((List.range' 1 (o.numChannels bid)).map
          (fun (i : Nat) => (PyKey.int (i : Int), discoverChannel o bid b0.type i))) =
          chs := Option.some.inj hchs
      subst hchse
      constructor
      · unfold chanIdxOK
        rw [List.map_map]
        simp only [List.length_map, List.length_range']
        rfl
      · intro k ch hch lv hlv
        have hmem := lookupA_mem _ _ _ hch
        obtain ⟨i, hi, he⟩ := List.mem_map.mp hmem
        have hche : discoverChannel o bid b0.type i = ch := congrArg Prod.snd he
        subst hche
        simp only [discoverChannel] at hlv
        by_cases hg : b0.type ∈ [S "LevelControl", S "DanteInput", S "DanteOutput",
            S "AudioOutput"]
        · rw [if_pos hg] at hlv
          have hlve := Option.some.inj hlv
          subst hlve
          obtain ⟨mn, mx, h1, h2, h3⟩ := (ho bid).2 i
          exact ⟨mn, mx, h1, h2, h3, fun hobs => nomatch hobs⟩
        · rw [if_neg hg] at hlv
          exact absurd hlv (by simp)
  · rw [if_neg ht]
    constructor
    · intro hsupp
      rw [hP.1] at hsupp
      exact nomatch hsupp
    · intro chs hchs
      rw [hP.2] at hchs
      exact absurd hchs (by simp)

/-- C3 (amended): after discovery against a device that reports at least
one channel per block and numeric, ordered level bounds, and after any
sequence of dispatched subscription frames whose level values stay
within the stored bounds of the channels they address, every block of
the model satisfies the claimed invariant: a supported block has a
non-empty channel dict, the channel key set stays `1..N` in order, each
level record keeps numeric bounds with `minimum ≤ maximum`, and
`minimum ≤ current ≤ maximum` whenever `current` was observed. The two
device-side hypotheses are necessary: the code never checks them (see
the counterexample theorem). -/
theorem level_invariants_after_frames (o : Oracle) (aliases : List PyStr)
    (msgs : List SubMsg) (ho : OracleOK o)
    (hf : ∀ msg ∈ msgs, FrameOK (discoverDSPBlocks o aliases) msg) :
    ModelInv (msgs.foldl dispatchSub (discoverDSPBlocks o aliases)) := by
  have gen : ∀ (l : List SubMsg) (m : Model), ModelInv m →
      StructPres (discoverDSPBlocks o aliases) m →
      (∀ msg ∈ l, FrameOK (discoverDSPBlocks o aliases) msg) →
      ModelInv (l.foldl dispatchSub m) := by
    intro l
    induction l with
    | nil => intro m hm _ _; exact hm
    | cons msg rest ih =>
      intro m hm hs hl
      simp only [List.foldl_cons]
      refine ih (dispatchSub m msg) ?_ ?_ ?_
      · exact modelInv_dispatchSub m msg hm
          (frameOK_transfer msg hs (hl msg (List.mem_cons_self _ _)))
      · exact structPres_trans hs (structPres_of_modelPres (dispatchSub_pres m msg))
      · intro msg2 h2
        exact hl msg2 (List.mem_cons_of_mem _ h2)
  exact gen msgs _ (modelInv_discover o aliases ho) (structPres_refl _) hf

/-- C3 counterexample to the unconditional reading: the router applies a
received level value with no range check, so a single in-protocol
subscription frame carrying `-200` drives `current` below the stored
minimum `-100` of a freshly discovered block, and the invariant fails. -/
theorem level_invariants_not_unconditional :
    ¬ ModelInv ([(⟨S "Gain1", S "levels", .list [.num ⟨-200, 0⟩]⟩ : SubMsg)].foldl
      dispatchSub (discoverDSPBlocks demoOracle [S "Gain1"])) := by
  intro h
  have hb : lookupA ([(⟨S "Gain1", S "levels", .list [.num ⟨-200, 0⟩]⟩ : SubMsg)].foldl
      dispatchSub (discoverDSPBlocks demoOracle [S "Gain1"])) (S "Gain1") = some
      ⟨S "LevelControl", true, some false, none,
        some [(PyKey.int 1, ⟨1, .text (S "L"), some false,
          some ⟨⟨-200, 0⟩, .num ⟨-100, 0⟩, .num ⟨12, 0⟩, true⟩⟩)]⟩ := by decide
  have h2 := (h (S "Gain1") _ hb).2 _ rfl
  have h3 := h2.2 (PyKey.int 1)
    ⟨1, .text (S "L"), some false, some ⟨⟨-200, 0⟩, .num ⟨-100, 0⟩, .num ⟨12, 0⟩, true⟩⟩
    (by decide) ⟨⟨-200, 0⟩, .num ⟨-100, 0⟩, .num ⟨12, 0⟩, true⟩ rfl
  obtain ⟨mn, mx, hmn, hmx, hle, hobs⟩ := h3
  have hmn2 : PyVal.num ⟨-100, 0⟩ = PyVal.num mn := hmn
  have hmne : mn = ⟨-100, 0⟩ := (PyVal.num.inj hmn2).symm
  have hbad := (hobs rfl).1
  rw [hmne] at hbad
  exact absurd hbad (by decide)

/-- Closed instance of `level_invariants_after_frames`: a one-block,
one-channel discovery against `demoOracle` followed by one in-range
level frame (`-20` inside `-100 .. 12`) satisfies the invariant. -/
theorem level_invariants_after_frames_witness :
    ModelInv ([(⟨S "Gain1", S "levels", .list [.num ⟨-20, 0⟩]⟩ : SubMsg)].foldl
      dispatchSub (discoverDSPBlocks demoOracle [S "Gain1"])) := by
  refine level_invariants_after_frames demoOracle [S "Gain1"]
    [⟨S "Gain1", S "levels", .list [.num ⟨-20, 0⟩]⟩] ?_ ?_
  · intro a
    constructor
    · exact Nat.le_refl 1
    · intro i
      refine ⟨⟨-100, 0⟩, ⟨12, 0⟩, ?_, ?_, ?_⟩
      · show valFormat (pyStr (PyVal.num ⟨-100, 0⟩)) = PyVal.num ⟨-100, 0⟩
        decide
      · show valFormat (pyStr (PyVal.num ⟨12, 0⟩)) = PyVal.num ⟨12, 0⟩
        decide
      · decide
  · intro msg hmsg
    have hm : msg = ⟨S "Gain1", S "levels", .list [.num ⟨-20, 0⟩]⟩ := by
      simpa using hmsg
    subst hm
    intro vs hv hkind b hb chs hc
    have hv2 : SubVal.list [PyVal.num ⟨-20, 0⟩] = SubVal.list vs := hv
    obtain rfl := (SubVal.list.inj hv2).symm
    have hb2 : some (⟨S "LevelControl", true, some false, none,
        some [(PyKey.int 1, ⟨1, .text (S "L"), some false,
          some ⟨⟨-100, 0⟩, .num ⟨-100, 0⟩, .num ⟨12, 0⟩, false⟩⟩)]⟩ : Block) =
        some b :=
      (show lookupA (discoverDSPBlocks demoOracle [S "Gain1"]) (S "Gain1") =
        some ⟨S "LevelControl", true, some false, none,
          some [(PyKey.int 1, ⟨1, .text (S "L"), some false,
            some ⟨⟨-100, 0⟩, .num ⟨-100, 0⟩, .num ⟨12, 0⟩, false⟩⟩)]⟩
        from by decide).symm.trans hb
    obtain rfl := Option.some.inj hb2
    have hc2 : some [(PyKey.int 1, (⟨1, .text (S "L"), some false,
        some ⟨⟨-100, 0⟩, .num ⟨-100, 0⟩, .num ⟨12, 0⟩, false⟩⟩ : Channel))] =
        some chs := hc
    obtain rfl := Option.some.inj hc2
    intro k v hmem b2 hb3 chs2 hc3 ch hch lv hlv d hd
    have hmem2 : (k, v) ∈ [(PyKey.int 1, PyVal.num ⟨-20, 0⟩)] := hmem
    have hkv := List.mem_singleton.mp hmem2
    have hk : k = PyKey.int 1 := congrArg Prod.fst hkv
    have hvv : v = PyVal.num ⟨-20, 0⟩ := congrArg Prod.snd hkv
    subst hk
    subst hvv
    have hb4 : some (⟨S "LevelControl", true, some false, none,
        some [(PyKey.int 1, ⟨1, .text (S "L"), some false,
          some ⟨⟨-100, 0⟩, .num ⟨-100, 0⟩, .num ⟨12, 0⟩, false⟩⟩)]⟩ : Block) =
        some b2 :=
      (show lookupA (discoverDSPBlocks demoOracle [S "Gain1"]) (S "Gain1") =
        some ⟨S "LevelControl", true, some false, none,
          some [(PyKey.int 1, ⟨1, .text (S "L"), some false,
            some ⟨⟨-100, 0⟩, .num ⟨-100, 0⟩, .num ⟨12, 0⟩, false⟩⟩)]⟩
        from by decide).symm.trans hb3
    obtain rfl := Option.some.inj hb4
    have hc4 : some [(PyKey.int 1, (⟨1, .text (S "L"), some false,
        some ⟨⟨-100, 0⟩, .num ⟨-100, 0⟩, .num ⟨12, 0⟩, false⟩⟩ : Channel))] =
        some chs2 := hc3
    obtain rfl := Option.some.inj hc4
    have hch2 : some (⟨1, .text (S "L"), some false,
        some ⟨⟨-100, 0⟩, .num ⟨-100, 0⟩, .num ⟨12, 0⟩, false⟩⟩ : Channel) =
        some ch := hch
    obtain rfl := Option.some.inj hch2
    have hlv2 : some (⟨⟨-100, 0⟩, .num ⟨-100, 0⟩, .num ⟨12, 0⟩, false⟩ : Level) =
        some lv := hlv
    obtain rfl := Option.some.inj hlv2
    have hd2 : some (⟨-20, 0⟩ : Dec) = some d := hd
    obtain rfl := Option.some.inj hd2
    exact ⟨⟨-100, 0⟩, ⟨12, 0⟩, rfl, rfl, by decide, by decide⟩
